import Mathlib

/- Shallow embedding of the photo-organizing toolkit (organize_photos.py,
   find_duplicates.py) and proofs of the specification claims about it.

   Strings model Python strings, paths are plain strings (or a
   directory/basename pair where the scripts take paths apart), machine
   file sizes and counters are `Nat`, and every fallible operation is
   modelled with `Option`/`Except` or an explicit outcome type. -/

set_option maxHeartbeats 2000000
set_option maxRecDepth 100000

/-! ## Shared string and path helpers -/

/-- Python `str.lower()` applied character by character (ASCII names). -/
def myLower (s : String) : String := ⟨s.data.map Char.toLower⟩

/-- Python `str.upper()` applied character by character (ASCII names). -/
def myUpper (s : String) : String := ⟨s.data.map Char.toUpper⟩

/-- Python `enumerate`: tag a list with indices starting at `i`. -/
def withIdx : Nat → List α → List (Nat × α)
  | _, [] => []
  | i, a :: as => (i, a) :: withIdx (i + 1) as

@[simp] theorem withIdx_nil (i : Nat) : withIdx i ([] : List α) = [] := rfl

@[simp] theorem withIdx_cons (i : Nat) (a : α) (as : List α) :
    withIdx i (a :: as) = (i, a) :: withIdx (i + 1) as := rfl

theorem withIdx_map_snd (as : List α) : ∀ i, (withIdx i as).map Prod.snd = as := by
  induction as with
  | nil => intro i; rfl
  | cons a as ih => intro i; simp [withIdx, ih]

theorem withIdx_fst_ge (as : List α) :
    ∀ i x, x ∈ withIdx i as → i ≤ x.1 := by
  induction as with
  | nil => intro i x h; simp [withIdx] at h
  | cons a as ih =>
    intro i x h
    simp only [withIdx_cons, List.mem_cons] at h
    rcases h with h | h
    · simp [h]
    · exact Nat.le_of_succ_le (ih (i + 1) x h)

theorem withIdx_fst_nodup (as : List α) : ∀ i, ((withIdx i as).map Prod.fst).Nodup := by
  induction as with
  | nil => intro i; simp [withIdx]
  | cons a as ih =>
    intro i
    simp only [withIdx_cons, List.map_cons, List.nodup_cons]
    refine ⟨?_, ih (i + 1)⟩
    intro hmem
    rcases List.mem_map.1 hmem with ⟨x, hx, hfst⟩
    have := withIdx_fst_ge as (i + 1) x hx
    omega

/-- Index of the last `'.'` in a character list (Python `str.rfind('.')`). -/
def lastDotIdx (cs : List Char) : Option Nat :=
  (withIdx 0 cs).foldl (fun acc p => if p.2 = '.' then some p.1 else acc) none

/-- `pathlib.PurePath.suffix` on a bare file name: the extension including
    the dot, empty for names with no dot, leading-dot-only names, or a
    trailing dot. -/
def pathSuffix (name : String) : String :=
  match lastDotIdx name.data with
  | none => ""
  | some i => if 0 < i ∧ i < name.data.length - 1 then ⟨name.data.drop i⟩ else ""

/-- `pathlib.PurePath.stem` on a bare file name: the name with the
    `pathSuffix` removed. -/
def pathStem (name : String) : String :=
  match lastDotIdx name.data with
  | none => name
  | some i => if 0 < i ∧ i < name.data.length - 1 then ⟨name.data.take i⟩ else name

theorem string_data_append (s t : String) : (s ++ t).data = s.data ++ t.data := rfl

theorem string_eq_of_data (s t : String) (h : s.data = t.data) : s = t :=
  congrArg String.mk h

/-- A name always decomposes as its stem followed by its suffix. -/
theorem pathStem_append_pathSuffix (name : String) :
    pathStem name ++ pathSuffix name = name := by
  apply string_eq_of_data
  rw [string_data_append]
  unfold pathStem pathSuffix
  cases h : lastDotIdx name.data with
  | none => simp
  | some i =>
    dsimp only
    by_cases hb : 0 < i ∧ i < name.data.length - 1
    · rw [if_pos hb, if_pos hb]
      exact List.take_append_drop i name.data
    · rw [if_neg hb, if_neg hb]
      simp

/-- `os.path.splitext` on a bare file name: split at the last dot unless
    every character before it is itself a dot. -/
def splitext (name : String) : String × String :=
  match lastDotIdx name.data with
  | none => (name, "")
  | some i =>
    if (name.data.take i).any (fun c => c ≠ '.') then
      (⟨name.data.take i⟩, ⟨name.data.drop i⟩)
    else (name, "")

/-- Python `b in a` for strings: `startsWithList n h` says `n` is a prefix
    of `h`. -/
def startsWithList : List Char → List Char → Bool
  | [], _ => true
  | _ :: _, [] => false
  | a :: as, b :: bs => a == b && startsWithList as bs

/-- Python substring containment `needle in hay`. -/
def hasSub : List Char → List Char → Bool
  | n, [] => n.isEmpty
  | n, c :: cs => startsWithList n (c :: cs) || hasSub n cs

/-- The fixed media-extension set shared by both scripts
    (`is_image_file` in organize_photos.py and find_duplicates.py). -/
def image_extensions : List String :=
  [".jpg", ".jpeg", ".png", ".gif", ".bmp", ".tiff", ".tif",
   ".webp", ".heic", ".heif", ".raw", ".cr2", ".nef", ".arw",
   ".dng", ".orf", ".rw2", ".pef", ".srw", ".raf",
   ".psd", ".xmp",
   ".avi", ".mov", ".wmv"]

/-- `is_image_file`: the lowercased extension is in the fixed media set. -/
def is_image_file (name : String) : Bool :=
  image_extensions.contains (myLower (pathSuffix name))

/-- Path separator used when joining paths (`os.sep`). -/
def sep : String := "/"

/-- `os.path.join` for one component. -/
def joinP (dir name : String) : String := dir ++ sep ++ name

/-- Zero-pad a decimal rendering of `n` to width `w`
    (`strftime` `%Y`/`%m`/`%d` style). -/
def padZeros (w n : Nat) : String :=
  let s := toString n
  ⟨List.replicate (w - s.length) '0' ++ s.data⟩

/-- A resolved timestamp (`datetime.datetime` fields the scripts use). -/
structure DateTime where
  year : Nat
  month : Nat
  day : Nat
  hour : Nat
  minute : Nat
  second : Nat
deriving DecidableEq

/-- `strftime("%Y")`. -/
def yearStr (d : DateTime) : String := padZeros 4 d.year

/-- `strftime("%Y%m%d")`. -/
def dayStr (d : DateTime) : String :=
  padZeros 4 d.year ++ padZeros 2 d.month ++ padZeros 2 d.day

/-- Membership of a `Nat` in a list (the Python `processed` set probes). -/
def memN (n : Nat) : List Nat → Bool
  | [] => false
  | m :: ms => (n == m) || memN n ms

@[simp] theorem memN_nil (n : Nat) : memN n [] = false := rfl

@[simp] theorem memN_cons (n m : Nat) (ms : List Nat) :
    memN n (m :: ms) = ((n == m) || memN n ms) := rfl

theorem memN_append (n : Nat) (l₁ l₂ : List Nat) :
    memN n (l₁ ++ l₂) = (memN n l₁ || memN n l₂) := by
  induction l₁ with
  | nil => simp
  | cons m ms ih => simp [ih, Bool.or_assoc]

theorem memN_iff_mem (n : Nat) (l : List Nat) : memN n l = true ↔ n ∈ l := by
  induction l with
  | nil => simp
  | cons m ms ih => simp [memN, ih, Nat.beq_eq]

/-- Integers `lo, lo+1, …, hi-1`, Python `range(lo, hi)`. -/
def natRange (lo hi : Nat) : List Nat := (List.range (hi - lo)).map (lo + ·)

theorem mem_natRange {lo hi m : Nat} (h : m ∈ natRange lo hi) : lo ≤ m ∧ m < hi := by
  rcases List.mem_map.1 h with ⟨k, hk, rfl⟩
  have := List.mem_range.1 hk
  omega

/-! ## difflib.SequenceMatcher, as used by filename_similarity -/

/-- Length of the longest common prefix of two character lists. -/
def commonPrefixLen : List Char → List Char → Nat
  | a :: as, b :: bs => if a = b then commonPrefixLen as bs + 1 else 0
  | _, _ => 0

theorem commonPrefixLen_le_left : ∀ x y : List Char, commonPrefixLen x y ≤ x.length := by
  intro x
  induction x with
  | nil => intro y; cases y <;> simp [commonPrefixLen]
  | cons a as ih =>
    intro y
    cases y with
    | nil => simp [commonPrefixLen]
    | cons b bs =>
      simp only [commonPrefixLen, List.length_cons]
      split
      · exact Nat.succ_le_succ (ih bs)
      · omega

theorem commonPrefixLen_self : ∀ c : List Char, commonPrefixLen c c = c.length := by
  intro c
  induction c with
  | nil => rfl
  | cons a as ih => simp [commonPrefixLen, ih]

/-- A matching block: `a[i:i+k] == b[j:j+k]`. -/
structure Block where
  i : Nat
  j : Nat
  k : Nat

/-- Length of the common run of `a` and `b` starting at `(i, j)`, truncated
    at the slice ends `ahi`/`bhi`. -/
def cappedRun (a b : List Char) (ahi bhi i j : Nat) : Nat :=
  commonPrefixLen ((a.drop i).take (ahi - i)) ((b.drop j).take (bhi - j))

theorem cappedRun_le_left (a b : List Char) (ahi bhi i j : Nat) :
    cappedRun a b ahi bhi i j ≤ ahi - i := by
  refine le_trans (commonPrefixLen_le_left _ _) ?_
  simp only [List.length_take]
  exact Nat.min_le_left _ _

theorem cappedRun_le_right (a b : List Char) (ahi bhi i j : Nat) :
    cappedRun a b ahi bhi i j ≤ bhi - j := by
  refine le_trans ?_ (Nat.min_le_left (bhi - j) (b.drop j).length)
  have h2 : ∀ x y : List Char, commonPrefixLen x y ≤ y.length := by
    intro x
    induction x with
    | nil => intro y; cases y <;> simp [commonPrefixLen]
    | cons c cs ih =>
      intro y
      cases y with
      | nil => simp [commonPrefixLen]
      | cons d ds =>
        simp only [commonPrefixLen, List.length_cons]
        split
        · exact Nat.succ_le_succ (ih ds)
        · omega
  refine le_trans (h2 _ _) ?_
  simp [List.length_take]

/-- All slice index pairs, scanned in the order in which
    `SequenceMatcher.find_longest_match` records candidate blocks. -/
def allPairs (alo ahi blo bhi : Nat) : List (Nat × Nat) :=
  ((natRange alo ahi).map (fun i => (natRange blo bhi).map (fun j => (i, j)))).flatten

/-- One candidate step of `find_longest_match`: a strictly longer run
    displaces the current best block. -/
def bestStep (a b : List Char) (ahi bhi : Nat) (best : Block) (ij : Nat × Nat) : Block :=
  if best.k < cappedRun a b ahi bhi ij.1 ij.2 then ⟨ij.1, ij.2, cappedRun a b ahi bhi ij.1 ij.2⟩
  else best

/-- `SequenceMatcher.find_longest_match` on slices `a[alo:ahi]`, `b[blo:bhi]`
    (no junk): the longest matching block, ties resolved towards the
    smallest `i`, then the smallest `j`. -/
def findLongestMatch (a b : List Char) (alo ahi blo bhi : Nat) : Block :=
  (allPairs alo ahi blo bhi).foldl (bestStep a b ahi bhi) ⟨alo, blo, 0⟩

theorem mem_allPairs {alo ahi blo bhi : Nat} {x : Nat × Nat}
    (h : x ∈ allPairs alo ahi blo bhi) :
    alo ≤ x.1 ∧ x.1 < ahi ∧ blo ≤ x.2 ∧ x.2 < bhi := by
  unfold allPairs at h
  rcases List.mem_flatten.1 h with ⟨l, hl, hx⟩
  rcases List.mem_map.1 hl with ⟨i, hi, rfl⟩
  rcases List.mem_map.1 hx with ⟨j, hj, rfl⟩
  have h1 := mem_natRange hi
  have h2 := mem_natRange hj
  exact ⟨h1.1, h1.2, h2.1, h2.2⟩

theorem foldl_bestStep_inv (a b : List Char) (ahi bhi : Nat) (P : Block → Prop)
    (l : List (Nat × Nat)) :
    ∀ b0 : Block, P b0 →
      (∀ x ∈ l, P ⟨x.1, x.2, cappedRun a b ahi bhi x.1 x.2⟩) →
      P (l.foldl (bestStep a b ahi bhi) b0) := by
  induction l with
  | nil => intro b0 h0 _; exact h0
  | cons x xs ih =>
    intro b0 h0 hl
    rw [List.foldl_cons]
    refine ih _ ?_ ?_
    · unfold bestStep
      split
      · exact hl x (by simp)
      · exact h0
    · intro y hy; exact hl y (by simp [hy])

theorem foldl_bestStep_const (a b : List Char) (ahi bhi : Nat)
    (l : List (Nat × Nat)) (b0 : Block)
    (hl : ∀ x : Nat × Nat, cappedRun a b ahi bhi x.1 x.2 ≤ b0.k) :
    l.foldl (bestStep a b ahi bhi) b0 = b0 := by
  induction l with
  | nil => rfl
  | cons x xs ih =>
    rw [List.foldl_cons]
    have hx := hl x
    have hstep : bestStep a b ahi bhi b0 x = b0 := by
      unfold bestStep
      rw [if_neg (by omega)]
    rw [hstep]
    exact ih

theorem findLongestMatch_bounds (a b : List Char) (alo ahi blo bhi : Nat) :
    alo ≤ (findLongestMatch a b alo ahi blo bhi).i ∧
      blo ≤ (findLongestMatch a b alo ahi blo bhi).j ∧
      (findLongestMatch a b alo ahi blo bhi).k ≤ ahi - (findLongestMatch a b alo ahi blo bhi).i ∧
      (findLongestMatch a b alo ahi blo bhi).k ≤ bhi - (findLongestMatch a b alo ahi blo bhi).j := by
  unfold findLongestMatch
  refine foldl_bestStep_inv a b ahi bhi
    (fun blk => alo ≤ blk.i ∧ blo ≤ blk.j ∧ blk.k ≤ ahi - blk.i ∧ blk.k ≤ bhi - blk.j) _ _
    ⟨le_refl _, le_refl _, by simp, by simp⟩ ?_
  intro x hx
  have hm := mem_allPairs hx
  exact ⟨hm.1, hm.2.2.1, cappedRun_le_left a b ahi bhi x.1 x.2,
    cappedRun_le_right a b ahi bhi x.1 x.2⟩

/-- Total size of all matching blocks (the `get_matching_blocks`
    divide-and-conquer recursion), with explicit fuel. -/
def matchBlocksTotal (a b : List Char) : Nat → Nat → Nat → Nat → Nat → Nat
  | 0, _, _, _, _ => 0
  | fuel + 1, alo, ahi, blo, bhi =>
    if (findLongestMatch a b alo ahi blo bhi).k = 0 then 0
    else
      matchBlocksTotal a b fuel alo (findLongestMatch a b alo ahi blo bhi).i blo
          (findLongestMatch a b alo ahi blo bhi).j +
        (findLongestMatch a b alo ahi blo bhi).k +
        matchBlocksTotal a b fuel
          ((findLongestMatch a b alo ahi blo bhi).i + (findLongestMatch a b alo ahi blo bhi).k) ahi
          ((findLongestMatch a b alo ahi blo bhi).j + (findLongestMatch a b alo ahi blo bhi).k) bhi

theorem matchBlocksTotal_le (a b : List Char) :
    ∀ fuel alo ahi blo bhi,
      matchBlocksTotal a b fuel alo ahi blo bhi ≤ ahi - alo ∧
        matchBlocksTotal a b fuel alo ahi blo bhi ≤ bhi - blo := by
  intro fuel
  induction fuel with
  | zero => intro alo ahi blo bhi; simp [matchBlocksTotal]
  | succ fuel ih =>
    intro alo ahi blo bhi
    by_cases hk : (findLongestMatch a b alo ahi blo bhi).k = 0
    · rw [matchBlocksTotal, if_pos hk]
      simp
    · rw [matchBlocksTotal, if_neg hk]
      have hb := findLongestMatch_bounds a b alo ahi blo bhi
      have h1 := ih alo (findLongestMatch a b alo ahi blo bhi).i blo
        (findLongestMatch a b alo ahi blo bhi).j
      have h2 := ih ((findLongestMatch a b alo ahi blo bhi).i +
          (findLongestMatch a b alo ahi blo bhi).k) ahi
        ((findLongestMatch a b alo ahi blo bhi).j + (findLongestMatch a b alo ahi blo bhi).k) bhi
      constructor <;> omega

/-- `M`: the total number of matched characters between `a` and `b`. -/
def totalMatches (a b : List Char) : Nat :=
  matchBlocksTotal a b (a.length + b.length + 1) 0 a.length 0 b.length

/-- `SequenceMatcher.ratio()`: `2*M / (len(a)+len(b))`, and `1.0` when both
    inputs are empty (`difflib._calculate_ratio`). -/
def ratioQ (a b : List Char) : ℚ :=
  if a.length + b.length = 0 then 1
  else (2 * totalMatches a b : ℚ) / ((a.length : ℚ) + (b.length : ℚ))

/-- The junk-free matching-blocks ratio `2*M/(len(a)+len(b))` of the two
    lowercased names. `filename_similarity_code` below keeps the default
    autojunk heuristic of the `SequenceMatcher(None, ...)` call in
    find_duplicates.py; `ratioAJ_eq` shows the two agree whenever the
    second lowered name has fewer than 200 characters. -/
def filename_similarity (name1 name2 : String) : ℚ :=
  ratioQ (myLower name1).data (myLower name2).data

/-- `SIMILARITY_THRESHOLD = 0.80` from find_duplicates.py. -/
def SIMILARITY_THRESHOLD : ℚ := 0.80

theorem ratioQ_nonneg (a b : List Char) : 0 ≤ ratioQ a b := by
  unfold ratioQ
  split
  · norm_num
  · apply div_nonneg <;> positivity

theorem ratioQ_le_one (a b : List Char) : ratioQ a b ≤ 1 := by
  unfold ratioQ
  split
  · norm_num
  · rename_i h
    have hm := matchBlocksTotal_le a b (a.length + b.length + 1) 0 a.length 0 b.length
    have hM : 2 * totalMatches a b ≤ a.length + b.length := by
      unfold totalMatches
      omega
    have hpos : (0 : ℚ) < (a.length : ℚ) + (b.length : ℚ) := by
      have : 0 < a.length + b.length := Nat.pos_of_ne_zero h
      exact_mod_cast this
    rw [div_le_one hpos]
    exact_mod_cast hM

/-! ## find_duplicates.py: data model and clustering -/

/-- The comparison `filename_similarity(a, b) >= SIMILARITY_THRESHOLD` in
    exact integer form: `2*M/(la+lb) ≥ 4/5` iff `4*(la+lb) ≤ 10*M`
    (`simOk_iff` proves the two agree; the integer form computes inside
    the kernel). -/
def simOk (a b : String) : Bool :=
  decide (4 * ((myLower a).data.length + (myLower b).data.length) ≤
    10 * totalMatches (myLower a).data (myLower b).data)

theorem ratio_threshold_iff (x y : List Char) :
    (4 * (x.length + y.length) ≤ 10 * totalMatches x y) ↔
      SIMILARITY_THRESHOLD ≤ ratioQ x y := by
  unfold ratioQ SIMILARITY_THRESHOLD
  by_cases h0 : x.length + y.length = 0
  · rw [if_pos h0]
    constructor
    · intro _; norm_num
    · intro _; simp [h0]
  · rw [if_neg h0]
    have hpos : (0 : ℚ) < (x.length : ℚ) + (y.length : ℚ) := by
      have : 0 < x.length + y.length := Nat.pos_of_ne_zero h0
      exact_mod_cast this
    have h08 : (0.80 : ℚ) = 4 / 5 := by norm_num
    rw [h08, div_le_div_iff₀ (by norm_num) hpos]
    have hl : (4 : ℚ) * ((x.length : ℚ) + (y.length : ℚ)) =
        ((4 * (x.length + y.length) : ℕ) : ℚ) := by push_cast; ring
    have hr : (2 : ℚ) * (totalMatches x y : ℚ) * 5 =
        ((10 * totalMatches x y : ℕ) : ℚ) := by push_cast; ring
    rw [hl, hr, Nat.cast_le]

theorem simOk_iff (a b : String) :
    simOk a b = true ↔ SIMILARITY_THRESHOLD ≤ filename_similarity a b := by
  unfold simOk filename_similarity
  rw [decide_eq_true_eq]
  exact ratio_threshold_iff (myLower a).data (myLower b).data

/-- A directory entry as `os.listdir` with `os.path.isfile` and
    `os.path.getsize` presents it to `find_duplicates_in_folder`. -/
structure DirEntry where
  name : String
  isFile : Bool
  size : Nat
deriving DecidableEq

/-- The per-file record built by `find_duplicates_in_folder`. -/
structure MediaFile where
  path : String
  filename : String
  base_name : String
  size : Nat
  extension : String
deriving DecidableEq

def mkMediaFile (folder : String) (e : DirEntry) : MediaFile :=
  { path := joinP folder e.name
    filename := e.name
    base_name := pathStem e.name
    size := e.size
    extension := myLower (pathSuffix e.name) }

/-- The listing filter: regular files with a media extension and no
    case-insensitive `"final"` in the name survive. -/
def eligible (e : DirEntry) : Bool :=
  e.isFile && is_image_file e.name && !hasSub "final".data (myLower e.name).data

/-- The eligible files of one folder listing, as `MediaFile` records. -/
def mediaFilesOf (folder : String) (listing : List DirEntry) : List MediaFile :=
  (listing.filter eligible).map (mkMediaFile folder)

/-- The `(extension, size)` keys in first-appearance order (iteration order
    of the `defaultdict`). -/
def keysInOrder (ms : List MediaFile) : List (String × Nat) :=
  ms.foldl
    (fun ks m => if (m.extension, m.size) ∈ ks then ks else ks ++ [(m.extension, m.size)]) []

/-- The members of one `(extension, size)` group, in listing order. -/
def groupOf (ms : List MediaFile) (k : String × Nat) : List MediaFile :=
  ms.filter (fun m => m.extension == k.1 && m.size == k.2)

/-- Inner loop of `find_duplicates_in_folder`: scan all indexed files,
    skip processed ones, and add to the seed's cluster each file whose
    similarity to the seed reaches the threshold. -/
def addSimilarFold (idx : List (Nat × MediaFile)) (seed : MediaFile)
    (acc : List MediaFile × List Nat) : List MediaFile × List Nat :=
  idx.foldl
    (fun acc jf =>
      if memN jf.1 acc.2 then acc
      else if simOk seed.base_name jf.2.base_name then (acc.1 ++ [jf.2], acc.2 ++ [jf.1])
      else acc)
    acc

/-- Outer loop of `find_duplicates_in_folder`: each unprocessed file in
    turn becomes a seed; a seed's cluster is emitted when it has at least
    two members. -/
def clusterFold (idxAll : List (Nat × MediaFile)) (l : List (Nat × MediaFile))
    (acc : List Nat × List (List MediaFile)) : List Nat × List (List MediaFile) :=
  l.foldl
    (fun acc ifl =>
      if memN ifl.1 acc.1 then acc
      else
        ((addSimilarFold idxAll ifl.2 ([ifl.2], acc.1 ++ [ifl.1])).2,
          if 1 < (addSimilarFold idxAll ifl.2 ([ifl.2], acc.1 ++ [ifl.1])).1.length then
            acc.2 ++ [(addSimilarFold idxAll ifl.2 ([ifl.2], acc.1 ++ [ifl.1])).1]
          else acc.2))
    acc

/-- The similarity-clustering pass over one `(extension, size)` group. -/
def clusterGroup (files : List MediaFile) : List (List MediaFile) :=
  (clusterFold (withIdx 0 files) (withIdx 0 files) ([], [])).2

/-- One reported duplicate group (a value of the `duplicates` dict). -/
structure Cluster where
  folder : String
  extension : String
  size : Nat
  files : List MediaFile
deriving DecidableEq

/-- `find_duplicates_in_folder` on a successfully listed folder: group the
    eligible files by `(extension, size)`, similarity-cluster each group
    with more than one member, and emit the clusters of size `> 1`. -/
def find_duplicates_in_folder (folder : String) (listing : List DirEntry) : List Cluster :=
  ((keysInOrder (mediaFilesOf folder listing)).map (fun k =>
    if 1 < (groupOf (mediaFilesOf folder listing) k).length then
      (clusterGroup (groupOf (mediaFilesOf folder listing) k)).map
        (fun c => Cluster.mk folder k.1 k.2 c)
    else [])).flatten

/-- A listing that raises `PermissionError` yields no clusters
    (the `except PermissionError: pass` arm). -/
def find_duplicates_result (folder : String) (listing : Option (List DirEntry)) :
    List Cluster :=
  match listing with
  | none => []
  | some l => find_duplicates_in_folder folder l

/-- Seed-anchored greedy clustering exactly as §4.2 of the spec words it:
    the first unassigned file seeds a cluster, each later unassigned file
    joins exactly when its similarity to the seed reaches the threshold,
    and the remaining files are clustered recursively. -/
def greedyClusters (files : List MediaFile) : List (List MediaFile) :=
  match files with
  | [] => []
  | seed :: rest =>
    (seed :: rest.filter (fun f => simOk seed.base_name f.base_name)) ::
      greedyClusters (rest.filter (fun f => !simOk seed.base_name f.base_name))
termination_by files.length
decreasing_by
  simp only [List.length_cons]
  exact Nat.lt_succ_of_le (List.length_filter_le _ _)

/-- The duplicate finder as the spec describes it: group, greedily
    cluster, and keep the clusters with at least two members. -/
def spec_find_duplicates (folder : String) (listing : List DirEntry) : List Cluster :=
  ((keysInOrder (mediaFilesOf folder listing)).map (fun k =>
    ((greedyClusters (groupOf (mediaFilesOf folder listing) k)).filter
        (fun c => 2 ≤ c.length)).map
      (fun c => Cluster.mk folder k.1 k.2 c))).flatten

/-! ### The processed-set scan is seed-anchored greedy clustering -/

theorem map_snd_filter_snd (l : List (Nat × MediaFile)) (q : MediaFile → Bool) :
    (l.filter (fun x => q x.2)).map Prod.snd = (l.map Prod.snd).filter q := by
  induction l with
  | nil => rfl
  | cons x xs ih => by_cases h : q x.2 <;> simp [List.filter_cons, h, ih]

theorem addSimilarFold_cons (x : Nat × MediaFile) (xs : List (Nat × MediaFile))
    (seed : MediaFile) (acc : List MediaFile × List Nat) :
    addSimilarFold (x :: xs) seed acc =
      addSimilarFold xs seed
        (if memN x.1 acc.2 then acc
         else if simOk seed.base_name x.2.base_name then (acc.1 ++ [x.2], acc.2 ++ [x.1])
         else acc) := rfl

theorem addSimilarFold_spec (seed : MediaFile) :
    ∀ (l : List (Nat × MediaFile)) (c : List MediaFile) (p : List Nat),
      ((l.map Prod.fst).Nodup) →
      addSimilarFold l seed (c, p) =
        (c ++ (l.filter
            (fun x => !memN x.1 p && simOk seed.base_name x.2.base_name)).map Prod.snd,
         p ++ (l.filter
            (fun x => !memN x.1 p && simOk seed.base_name x.2.base_name)).map Prod.fst) := by
  intro l
  induction l with
  | nil => intro c p _; simp [addSimilarFold]
  | cons x xs ih =>
    intro c p hnd
    simp only [List.map_cons, List.nodup_cons] at hnd
    obtain ⟨hx, hxs⟩ := hnd
    rw [addSimilarFold_cons]
    by_cases hmem : memN x.1 p
    · rw [if_pos hmem, ih c p hxs]
      have hpx : (!memN x.1 p && simOk seed.base_name x.2.base_name) = false := by
        simp [hmem]
      simp [List.filter_cons, hpx]
    · rw [if_neg hmem]
      by_cases hsim : simOk seed.base_name x.2.base_name
      · rw [if_pos hsim, ih (c ++ [x.2]) (p ++ [x.1]) hxs]
        have hcongr :
            xs.filter (fun y => !memN y.1 (p ++ [x.1]) && simOk seed.base_name y.2.base_name) =
              xs.filter (fun y => !memN y.1 p && simOk seed.base_name y.2.base_name) := by
          apply List.filter_congr
          intro y hy
          have hne : y.1 ≠ x.1 := by
            intro he
            exact hx (he ▸ List.mem_map_of_mem Prod.fst hy)
          have hbe : (y.1 == x.1) = false := beq_eq_false_iff_ne.2 hne
          simp [memN_append, hbe]
        rw [hcongr]
        have hpx : (!memN x.1 p && simOk seed.base_name x.2.base_name) = true := by
          simp [hmem, hsim]
        simp [List.filter_cons, hpx]
      · rw [if_neg hsim, ih c p hxs]
        have hpx : (!memN x.1 p && simOk seed.base_name x.2.base_name) = false := by
          simp [hmem, hsim]
        simp [List.filter_cons, hpx]

theorem memN_map_fst_filter (xs : List (Nat × MediaFile))
    (hnd : (xs.map Prod.fst).Nodup) (q : Nat × MediaFile → Bool)
    (y : Nat × MediaFile) (hy : y ∈ xs) :
    memN y.1 ((xs.filter q).map Prod.fst) = q y := by
  by_cases hq : q y = true
  · rw [hq, memN_iff_mem]
    exact List.mem_map_of_mem Prod.fst (List.mem_filter.2 ⟨hy, hq⟩)
  · have hq' : q y = false := by simpa using hq
    rw [hq']
    cases hmm : memN y.1 ((xs.filter q).map Prod.fst) with
    | false => rfl
    | true =>
      exfalso
      rw [memN_iff_mem] at hmm
      rcases List.mem_map.1 hmm with ⟨z, hz, hz1⟩
      have hzxs := List.mem_of_mem_filter hz
      have hzq := (List.mem_filter.1 hz).2
      have hzy : z = y := List.inj_on_of_nodup_map hnd hzxs hy hz1
      rw [hzy, hq'] at hzq
      cases hzq

theorem clusterFold_cons (idxAll : List (Nat × MediaFile)) (x : Nat × MediaFile)
    (xs : List (Nat × MediaFile)) (acc : List Nat × List (List MediaFile)) :
    clusterFold idxAll (x :: xs) acc =
      clusterFold idxAll xs
        (if memN x.1 acc.1 then acc
         else
           ((addSimilarFold idxAll x.2 ([x.2], acc.1 ++ [x.1])).2,
             if 1 < (addSimilarFold idxAll x.2 ([x.2], acc.1 ++ [x.1])).1.length then
               acc.2 ++ [(addSimilarFold idxAll x.2 ([x.2], acc.1 ++ [x.1])).1]
             else acc.2)) := rfl

theorem greedyClusters_nil : greedyClusters [] = [] := by
  rw [greedyClusters]

theorem greedyClusters_cons (seed : MediaFile) (rest : List MediaFile) :
    greedyClusters (seed :: rest) =
      (seed :: rest.filter (fun f => simOk seed.base_name f.base_name)) ::
        greedyClusters (rest.filter (fun f => !simOk seed.base_name f.base_name)) := by
  rw [greedyClusters]

theorem clusterFold_spec (idxAll : List (Nat × MediaFile))
    (hnd : (idxAll.map Prod.fst).Nodup) :
    ∀ (l pre : List (Nat × MediaFile)) (p : List Nat) (out : List (List MediaFile)),
      idxAll = pre ++ l →
      (∀ x ∈ pre, memN x.1 p = true) →
      (clusterFold idxAll l (p, out)).2 =
        out ++ (greedyClusters ((l.filter (fun x => !memN x.1 p)).map Prod.snd)).filter
          (fun c => decide (1 < c.length)) := by
  intro l
  induction l with
  | nil =>
    intro pre p out hsplit hcov
    simp [clusterFold, greedyClusters_nil]
  | cons x xs ih =>
    intro pre p out hsplit hcov
    have hndxs2 : ((x :: xs).map Prod.fst).Nodup := by
      rw [hsplit, List.map_append] at hnd
      exact hnd.of_append_right
    have hxnotxs : x.1 ∉ xs.map Prod.fst := by
      simp only [List.map_cons, List.nodup_cons] at hndxs2
      exact hndxs2.1
    have hndxs : (xs.map Prod.fst).Nodup := by
      simp only [List.map_cons, List.nodup_cons] at hndxs2
      exact hndxs2.2
    have hnd0 : (idxAll.map Prod.fst).Nodup := hnd
    rw [clusterFold_cons]
    by_cases hmem : memN x.1 p
    · rw [if_pos hmem]
      have hres := ih (pre ++ [x]) p out
        (by rw [hsplit, List.append_assoc]; rfl)
        (by
          intro y hy
          rcases List.mem_append.1 hy with hy | hy
          · exact hcov y hy
          · have : y = x := by simpa using hy
            rw [this]; exact hmem)
      rw [hres]
      have hpx : (!memN x.1 p) = false := by simp [hmem]
      simp [List.filter_cons, hpx]
    · rw [if_neg hmem]
      rw [addSimilarFold_spec x.2 idxAll [x.2] (p ++ [x.1]) hnd0]
      have hSfull :
          idxAll.filter
              (fun y => !memN y.1 (p ++ [x.1]) && simOk x.2.base_name y.2.base_name) =
            xs.filter (fun y => !memN y.1 p && simOk x.2.base_name y.2.base_name) := by
        rw [hsplit, List.filter_append]
        have h1 : pre.filter
            (fun y => !memN y.1 (p ++ [x.1]) && simOk x.2.base_name y.2.base_name) = [] := by
          rw [List.filter_eq_nil_iff]
          intro y hy
          have := hcov y hy
          simp [memN_append, this]
        rw [h1, List.nil_append]
        have hpx : (!memN x.1 (p ++ [x.1]) && simOk x.2.base_name x.2.base_name) = false := by
          simp [memN_append]
        rw [List.filter_cons]
        rw [hpx]
        simp only [Bool.false_eq_true, if_false]
        apply List.filter_congr
        intro y hy
        have hne : y.1 ≠ x.1 := by
          intro he
          exact hxnotxs (he ▸ List.mem_map_of_mem Prod.fst hy)
        have hbe : (y.1 == x.1) = false := beq_eq_false_iff_ne.2 hne
        simp [memN_append, hbe]
      rw [hSfull]
      set S := xs.filter (fun y => !memN y.1 p && simOk x.2.base_name y.2.base_name) with hS
      dsimp only
      set p' := p ++ [x.1] ++ S.map Prod.fst with hp'
      have hres := ih (pre ++ [x]) p'
        (if 1 < ([x.2] ++ S.map Prod.snd).length then out ++ [[x.2] ++ S.map Prod.snd] else out)
        (by rw [hsplit, List.append_assoc]; rfl)
        (by
          intro y hy
          rcases List.mem_append.1 hy with hy | hy
          · have := hcov y hy
            rw [hp']
            simp [memN_append, this]
          · have : y = x := by simpa using hy
            rw [this, hp']
            simp [memN_append])
      rw [hres]
      have hxsfilter :
          xs.filter (fun y => !memN y.1 p') =
            xs.filter (fun y => !memN y.1 p && !simOk x.2.base_name y.2.base_name) := by
        apply List.filter_congr
        intro y hy
        have hne : y.1 ≠ x.1 := by
          intro he
          exact hxnotxs (he ▸ List.mem_map_of_mem Prod.fst hy)
        have hbe : (y.1 == x.1) = false := beq_eq_false_iff_ne.2 hne
        have hmf := memN_map_fst_filter xs hndxs
          (fun y => !memN y.1 p && simOk x.2.base_name y.2.base_name) y hy
        rw [hp']
        rw [memN_append, memN_append]
        rw [← hS] at hmf
        rw [hmf]
        simp only [memN_cons, memN_nil, hbe, Bool.or_false]
        cases hyp : memN y.1 p <;> cases hys : simOk x.2.base_name y.2.base_name <;> simp
      rw [hxsfilter]
      have hhead :
          ((xs.filter (fun y => !memN y.1 p)).map Prod.snd).filter
              (fun f => simOk x.2.base_name f.base_name) = S.map Prod.snd := by
        rw [← map_snd_filter_snd, List.filter_filter, hS]
        congr 1
        apply List.filter_congr
        intro y _
        exact Bool.and_comm _ _
      have htail :
          ((xs.filter (fun y => !memN y.1 p)).map Prod.snd).filter
              (fun f => !simOk x.2.base_name f.base_name) =
            (xs.filter (fun y => !memN y.1 p && !simOk x.2.base_name y.2.base_name)).map
              Prod.snd := by
        rw [← map_snd_filter_snd, List.filter_filter]
        congr 1
        apply List.filter_congr
        intro y _
        exact Bool.and_comm _ _
      have hcx : (x :: xs).filter (fun y => !memN y.1 p) = x :: xs.filter (fun y => !memN y.1 p) := by
        rw [List.filter_cons]
        have : (!memN x.1 p) = true := by simp [hmem]
        rw [this]
        simp
      rw [hcx]
      simp only [List.map_cons]
      rw [greedyClusters_cons, hhead, htail]
      rw [List.filter_cons]
      by_cases hlen : 1 < ([x.2] ++ S.map Prod.snd).length
      · have hlen' : decide (1 < (x.2 :: S.map Prod.snd).length) = true :=
          decide_eq_true hlen
        rw [if_pos hlen]
        simp only [hlen', if_true]
        simp [List.append_assoc]
      · have hlen' : decide (1 < (x.2 :: S.map Prod.snd).length) = false :=
          decide_eq_false hlen
        rw [if_neg hlen]
        simp only [hlen', Bool.false_eq_true, if_false]

theorem filter_notmemN_nil (l : List (Nat × MediaFile)) :
    l.filter (fun x => !memN x.1 []) = l := by
  induction l with
  | nil => rfl
  | cons x xs ih => simp [List.filter_cons, ih]

theorem clusterGroup_eq_greedy (files : List MediaFile) :
    clusterGroup files =
      (greedyClusters files).filter (fun c => decide (1 < c.length)) := by
  unfold clusterGroup
  rw [clusterFold_spec (withIdx 0 files) (withIdx_fst_nodup files 0) (withIdx 0 files) [] [] []
    rfl (by intro x hx; cases hx)]
  rw [filter_notmemN_nil, withIdx_map_snd]
  rfl

theorem find_duplicates_eq_spec (folder : String) (listing : List DirEntry) :
    find_duplicates_in_folder folder listing = spec_find_duplicates folder listing := by
  unfold find_duplicates_in_folder spec_find_duplicates
  congr 1
  apply List.map_congr_left
  intro k _
  by_cases hlen : 1 < (groupOf (mediaFilesOf folder listing) k).length
  · rw [if_pos hlen, clusterGroup_eq_greedy]
    rfl
  · rw [if_neg hlen]
    cases hg : groupOf (mediaFilesOf folder listing) k with
    | nil => rw [greedyClusters_nil]; rfl
    | cons m rest =>
      cases rest with
      | nil =>
        rw [greedyClusters_cons]
        simp [greedyClusters_nil, List.filter_cons]
      | cons m2 r2 =>
        exfalso
        apply hlen
        rw [hg]
        simp

theorem greedy_flatten_perm_aux :
    ∀ n (files : List MediaFile), files.length ≤ n →
      (greedyClusters files).flatten.Perm files := by
  intro n
  induction n with
  | zero =>
    intro files hf
    have hnil : files = [] := List.eq_nil_of_length_eq_zero (Nat.le_zero.1 hf)
    rw [hnil, greedyClusters_nil]
    exact List.Perm.refl _
  | succ n ih =>
    intro files hf
    cases files with
    | nil => rw [greedyClusters_nil]; exact List.Perm.refl _
    | cons seed rest =>
      rw [greedyClusters_cons]
      simp only [List.flatten_cons, List.cons_append]
      have hlf := List.length_filter_le (fun f => !simOk seed.base_name f.base_name) rest
      have ih' := ih (rest.filter (fun f => !simOk seed.base_name f.base_name))
        (by simp only [List.length_cons] at hf; omega)
      refine List.Perm.trans (List.Perm.cons seed (List.Perm.append_left _ ih')) ?_
      exact List.Perm.cons seed (List.filter_append_perm _ rest)

/-- The clusters of the greedy pass partition their input group. -/
theorem greedy_flatten_perm (files : List MediaFile) :
    (greedyClusters files).flatten.Perm files :=
  greedy_flatten_perm_aux files.length files (le_refl _)

theorem greedy_mem_subset_aux :
    ∀ n (files : List MediaFile), files.length ≤ n →
      ∀ cl ∈ greedyClusters files, ∀ m ∈ cl, m ∈ files := by
  intro n
  induction n with
  | zero =>
    intro files hf cl hcl
    have hnil : files = [] := List.eq_nil_of_length_eq_zero (Nat.le_zero.1 hf)
    rw [hnil, greedyClusters_nil] at hcl
    cases hcl
  | succ n ih =>
    intro files hf cl hcl m hm
    cases files with
    | nil => rw [greedyClusters_nil] at hcl; cases hcl
    | cons seed rest =>
      rw [greedyClusters_cons] at hcl
      rcases List.mem_cons.1 hcl with hcl | hcl
      · rw [hcl] at hm
        rcases List.mem_cons.1 hm with hm | hm
        · exact hm ▸ List.mem_cons_self seed rest
        · exact List.mem_cons_of_mem seed (List.mem_of_mem_filter hm)
      · have hlf := List.length_filter_le (fun f => !simOk seed.base_name f.base_name) rest
        have := ih (rest.filter (fun f => !simOk seed.base_name f.base_name))
          (by simp only [List.length_cons] at hf; omega) cl hcl m hm
        exact List.mem_cons_of_mem seed (List.mem_of_mem_filter this)

theorem mem_groupOf {ms : List MediaFile} {k : String × Nat} {m : MediaFile}
    (h : m ∈ groupOf ms k) : m.extension = k.1 ∧ m.size = k.2 ∧ m ∈ ms := by
  unfold groupOf at h
  have h2 := (List.mem_filter.1 h).2
  simp only [Bool.and_eq_true, beq_iff_eq] at h2
  exact ⟨h2.1, h2.2, List.mem_of_mem_filter h⟩

theorem mediaFilesOf_no_final (folder : String) (listing : List DirEntry)
    (m : MediaFile) (hm : m ∈ mediaFilesOf folder listing) :
    hasSub "final".data (myLower m.filename).data = false := by
  unfold mediaFilesOf at hm
  rcases List.mem_map.1 hm with ⟨e, he, rfl⟩
  have hel := (List.mem_filter.1 he).2
  unfold eligible at hel
  simp only [Bool.and_eq_true, Bool.not_eq_true'] at hel
  exact hel.2

/-! ### Ratio facts for identical and concrete names -/

theorem natRange_zero_n (n : Nat) : natRange 0 n = List.range n := by
  simp [natRange]

theorem natRange_self (lo : Nat) : natRange lo lo = [] := by
  simp [natRange]

theorem allPairs_empty_left (alo blo bhi : Nat) : allPairs alo alo blo bhi = [] := by
  simp [allPairs, natRange_self]

theorem findLongestMatch_empty_left (a b : List Char) (alo blo bhi : Nat) :
    findLongestMatch a b alo alo blo bhi = ⟨alo, blo, 0⟩ := by
  rw [findLongestMatch, allPairs_empty_left]
  rfl

theorem matchBlocksTotal_empty_left (a b : List Char) (fuel alo blo bhi : Nat) :
    matchBlocksTotal a b fuel alo alo blo bhi = 0 := by
  cases fuel with
  | zero => rfl
  | succ fuel =>
    rw [matchBlocksTotal, findLongestMatch_empty_left]
    rfl

theorem allPairs_cons (ahi bhi : Nat) (ha : 0 < ahi) (hb : 0 < bhi) :
    ∃ rest, allPairs 0 ahi 0 bhi = (0, 0) :: rest := by
  unfold allPairs
  obtain ⟨m, rfl⟩ : ∃ m, ahi = m + 1 := ⟨ahi - 1, by omega⟩
  obtain ⟨k, rfl⟩ : ∃ k, bhi = k + 1 := ⟨bhi - 1, by omega⟩
  rw [natRange_zero_n, natRange_zero_n, List.range_succ_eq_map, List.range_succ_eq_map]
  simp only [List.map_cons, List.flatten_cons, List.cons_append]
  exact ⟨_, rfl⟩

theorem findLongestMatch_self (c : List Char) (m : Nat) (hm : c.length = m + 1) :
    findLongestMatch c c 0 c.length 0 c.length = ⟨0, 0, c.length⟩ := by
  obtain ⟨rest, hr⟩ := allPairs_cons c.length c.length (by omega) (by omega)
  unfold findLongestMatch
  rw [hr, List.foldl_cons]
  have hcap : cappedRun c c c.length c.length 0 0 = c.length := by
    unfold cappedRun
    simp only [List.drop_zero, Nat.sub_zero]
    rw [List.take_length]
    exact commonPrefixLen_self c
  have hstep : bestStep c c c.length c.length ⟨0, 0, 0⟩ (0, 0) = ⟨0, 0, c.length⟩ := by
    unfold bestStep
    simp only [hcap]
    rw [if_pos (by simp [hm])]
  rw [hstep]
  apply foldl_bestStep_const
  intro x
  have h1 := cappedRun_le_left c c c.length c.length x.1 x.2
  show cappedRun c c c.length c.length x.1 x.2 ≤ c.length
  omega

theorem totalMatches_self (c : List Char) : totalMatches c c = c.length := by
  unfold totalMatches
  cases hm : c.length with
  | zero => exact matchBlocksTotal_empty_left c c 1 0 0 0
  | succ m =>
    have hf := findLongestMatch_self c m hm
    rw [hm] at hf
    rw [matchBlocksTotal, hf]
    rw [if_neg (by simp)]
    simp only [Nat.zero_add]
    rw [matchBlocksTotal_empty_left]
    simp only [Nat.zero_add]
    rw [matchBlocksTotal_empty_left]

theorem ratioQ_self (c : List Char) : ratioQ c c = 1 := by
  unfold ratioQ
  by_cases h0 : c.length + c.length = 0
  · rw [if_pos h0]
  · rw [if_neg h0, totalMatches_self]
    have hpos : (0 : ℚ) < (c.length : ℚ) + (c.length : ℚ) := by
      have : 0 < c.length + c.length := Nat.pos_of_ne_zero h0
      exact_mod_cast this
    rw [div_eq_one_iff_eq (ne_of_gt hpos)]
    ring

theorem filename_similarity_self (s : String) : filename_similarity s s = 1 :=
  ratioQ_self (myLower s).data

theorem similarity_IMG_pair :
    SIMILARITY_THRESHOLD ≤ filename_similarity "IMG_0001" "IMG_0002" :=
  (simOk_iff "IMG_0001" "IMG_0002").1 (by decide)

theorem similarity_DSC_pair :
    filename_similarity "IMG_0001" "DSC_9999" < SIMILARITY_THRESHOLD := by
  have hfalse : simOk "IMG_0001" "DSC_9999" = false := by decide
  have hnot := mt (simOk_iff "IMG_0001" "DSC_9999").2 (by rw [hfalse]; simp)
  exact not_le.1 hnot

/-! ## organize_photos.py: the filing engine -/

/-- Python `str.lstrip('.')` as applied to an upper-cased extension. -/
def stripDots (s : String) : String := ⟨s.data.dropWhile (fun c => c == '.')⟩

/-- Environment of a filing run: the outcomes of the effectful calls a
    single file's pipeline makes. `photoDate` is the date resolution
    (including the `os.stat` it may perform), `mkdirsErr` the
    `os.makedirs` outcome, and `copyErr mode src dst` the
    `shutil.copy2`/`shutil.move` outcome (`mode` is `copy_files`); the
    `Option`/`Except` error carries the exception message. -/
structure OrgEnv where
  photoDate : String → Except String DateTime
  mkdirsErr : String → Option String
  copyErr : Bool → String → String → Option String

/-- State of a filing run: the files existing at destination paths plus
    the `stats` dictionary of `organize_photos`. -/
structure OrgState where
  fs : List String
  total_found : Nat
  organized : Nat
  skipped : Nat
  errors : List String
deriving DecidableEq

/-- The statistics at the start of a run, over pre-existing files `fs0`. -/
def initState (fs0 : List String) : OrgState :=
  { fs := fs0, total_found := 0, organized := 0, skipped := 0, errors := [] }

/-- The numbered collision name `dir/base_N.ext`
    (`f"{base}_{counter}{ext}"`). -/
def collisionName (dir fname : String) (n : Nat) : String :=
  joinP dir ((splitext fname).1 ++ "_" ++ toString n ++ (splitext fname).2)

/-- The `while os.path.exists(target_path)` rename loop, starting at
    `counter = n`, with explicit fuel. -/
def searchFree (ex : String → Bool) (dir fname : String) : Nat → Nat → String
  | 0, n => collisionName dir fname n
  | fuel + 1, n =>
    if ex (collisionName dir fname n) then searchFree ex dir fname fuel (n + 1)
    else collisionName dir fname n

/-- Collision-safe target resolution (organize_photos.py lines 189–197):
    keep the original name if free, else the first free `base_N.ext`. -/
def resolveTarget (fuel : Nat) (ex : String → Bool) (dir fname : String) : String :=
  if ex (joinP dir fname) then searchFree ex dir fname fuel 1
  else joinP dir fname

/-- One file's pipeline inside the `try`: resolve the date, build
    `dest/YYYY/YYYYMMDD/EXT`, create it, resolve name collisions against
    the existing files `fs`, then copy or move. Returns the final target
    path or the first raised message. -/
def fileTarget (env : OrgEnv) (dest : String) (copyFiles : Bool) (fs : List String)
    (file_path fname : String) : Except String String :=
  match env.photoDate file_path with
  | .error e => .error e
  | .ok d =>
    match env.mkdirsErr (dest ++ sep ++ yearStr d ++ sep ++ dayStr d ++ sep ++
        stripDots (myUpper (pathSuffix fname))) with
    | some e => .error e
    | none =>
      match env.copyErr copyFiles file_path
          (resolveTarget (fs.length + 1) (fun p => fs.contains p)
            (dest ++ sep ++ yearStr d ++ sep ++ dayStr d ++ sep ++
              stripDots (myUpper (pathSuffix fname))) fname) with
      | some e => .error e
      | none => .ok (resolveTarget (fs.length + 1) (fun p => fs.contains p)
          (dest ++ sep ++ yearStr d ++ sep ++ dayStr d ++ sep ++
            stripDots (myUpper (pathSuffix fname))) fname)

/-- Per-file processing in the walk loop: the `is_image_file` guard, the
    `total_found` count, then the `try`/`except` arms. -/
def processFile (env : OrgEnv) (dest : String) (copyFiles : Bool) (st : OrgState)
    (root fname : String) : OrgState :=
  if is_image_file fname then
    match fileTarget env dest copyFiles st.fs (joinP root fname) fname with
    | .ok tp =>
      { st with
          total_found := st.total_found + 1
          organized := st.organized + 1
          fs := st.fs ++ [tp] }
    | .error e =>
      { st with
          total_found := st.total_found + 1
          skipped := st.skipped + 1
          errors := st.errors ++ [joinP root fname ++ ": " ++ e] }
  else st

/-- `os.path.normpath(os.path.abspath(x)).lower()`: inputs are modelled as
    already absolute and normalized, so only the lowercasing remains. -/
def normPath (p : String) : String := myLower p

/-- The destination-subtree test of the walk loop: the directory equals
    the normalized destination or lies under `dest + os.sep`. -/
def skipDir (dest root : String) : Bool :=
  normPath root == normPath dest ||
    startsWithList (normPath dest ++ sep).data (normPath root).data

/-- One directory of the walk: skip the destination subtree entirely,
    else process each listed file in order. -/
def processDir (env : OrgEnv) (dest : String) (copyFiles : Bool) (st : OrgState)
    (rd : String × List String) : OrgState :=
  if skipDir dest rd.1 then st
  else rd.2.foldl (fun s f => processFile env dest copyFiles s rd.1 f) st

/-- `organize_photos`: fold the walk in order, starting from zeroed
    statistics and the pre-existing destination files `fs0`. -/
def organize_photos (env : OrgEnv) (walk : List (String × List String))
    (dest : String) (copyFiles : Bool) (fs0 : List String) : OrgState :=
  walk.foldl (processDir env dest copyFiles) (initState fs0)

/-! ### Filing-engine lemmas -/

theorem searchFree_eq (ex : String → Bool) (dir fname : String) (N : Nat)
    (hchain : ∀ m, 1 ≤ m → m < N → ex (collisionName dir fname m) = true)
    (hfree : ex (collisionName dir fname N) = false) :
    ∀ fuel n, 1 ≤ n → n ≤ N → N ≤ fuel + n →
      searchFree ex dir fname fuel n = collisionName dir fname N := by
  intro fuel
  induction fuel with
  | zero =>
    intro n h1 h2 h3
    have hn : n = N := by omega
    rw [searchFree, hn]
  | succ fuel ih =>
    intro n h1 h2 h3
    by_cases hn : n = N
    · subst hn
      rw [searchFree, hfree]
      simp
    · have hlt : n < N := by omega
      rw [searchFree, hchain n h1 hlt]
      simp only [if_true]
      exact ih (n + 1) (by omega) (by omega) (by omega)

/-- The bookkeeping invariant of the `stats` dictionary. -/
def statsOk (st : OrgState) : Prop :=
  st.total_found = st.organized + st.skipped ∧ st.errors.length = st.skipped

theorem processFile_statsOk (env : OrgEnv) (dest : String) (cf : Bool) (st : OrgState)
    (root fname : String) (h : statsOk st) :
    statsOk (processFile env dest cf st root fname) := by
  unfold processFile
  obtain ⟨h1, h2⟩ := h
  by_cases himg : is_image_file fname
  · rw [if_pos himg]
    cases hft : fileTarget env dest cf st.fs (joinP root fname) fname with
    | ok tp =>
      constructor
      · simp only []
        omega
      · simp only []
        omega
    | error e =>
      constructor
      · simp only []
        omega
      · simp only [List.length_append, List.length_cons, List.length_nil]
        omega
  · rw [if_neg himg]
    exact ⟨h1, h2⟩

/-- Pointwise increase of counters between two run states. -/
def statsLe (s t : OrgState) : Prop :=
  s.total_found ≤ t.total_found ∧ s.organized ≤ t.organized ∧
    s.skipped ≤ t.skipped ∧ s.errors.length ≤ t.errors.length

theorem statsLe_refl (s : OrgState) : statsLe s s :=
  ⟨le_refl _, le_refl _, le_refl _, le_refl _⟩

theorem statsLe_trans {s t u : OrgState} (h1 : statsLe s t) (h2 : statsLe t u) :
    statsLe s u :=
  ⟨le_trans h1.1 h2.1, le_trans h1.2.1 h2.2.1, le_trans h1.2.2.1 h2.2.2.1,
    le_trans h1.2.2.2 h2.2.2.2⟩

theorem processFile_statsLe (env : OrgEnv) (dest : String) (cf : Bool) (st : OrgState)
    (root fname : String) :
    statsLe st (processFile env dest cf st root fname) := by
  unfold processFile
  by_cases himg : is_image_file fname
  · rw [if_pos himg]
    cases hft : fileTarget env dest cf st.fs (joinP root fname) fname with
    | ok tp =>
      refine ⟨?_, ?_, ?_, ?_⟩ <;> simp
    | error e =>
      refine ⟨?_, ?_, ?_, ?_⟩ <;> simp
  · rw [if_neg himg]
    exact statsLe_refl st

theorem foldFiles_statsOk (env : OrgEnv) (dest : String) (cf : Bool) (root : String) :
    ∀ (files : List String) (st : OrgState), statsOk st →
      statsOk (files.foldl (fun s f => processFile env dest cf s root f) st) := by
  intro files
  induction files with
  | nil => intro st h; exact h
  | cons f fs ih =>
    intro st h
    rw [List.foldl_cons]
    exact ih _ (processFile_statsOk env dest cf st root f h)

theorem foldFiles_statsLe (env : OrgEnv) (dest : String) (cf : Bool) (root : String) :
    ∀ (files : List String) (st : OrgState),
      statsLe st (files.foldl (fun s f => processFile env dest cf s root f) st) := by
  intro files
  induction files with
  | nil => intro st; exact statsLe_refl st
  | cons f fs ih =>
    intro st
    rw [List.foldl_cons]
    exact statsLe_trans (processFile_statsLe env dest cf st root f) (ih _)

theorem processDir_statsOk (env : OrgEnv) (dest : String) (cf : Bool) (st : OrgState)
    (rd : String × List String) (h : statsOk st) :
    statsOk (processDir env dest cf st rd) := by
  unfold processDir
  split
  · exact h
  · exact foldFiles_statsOk env dest cf rd.1 rd.2 st h

theorem processDir_statsLe (env : OrgEnv) (dest : String) (cf : Bool) (st : OrgState)
    (rd : String × List String) :
    statsLe st (processDir env dest cf st rd) := by
  unfold processDir
  split
  · exact statsLe_refl st
  · exact foldFiles_statsLe env dest cf rd.1 rd.2 st

theorem foldWalk_statsOk (env : OrgEnv) (dest : String) (cf : Bool) :
    ∀ (walk : List (String × List String)) (st : OrgState), statsOk st →
      statsOk (walk.foldl (processDir env dest cf) st) := by
  intro walk
  induction walk with
  | nil => intro st h; exact h
  | cons rd w ih =>
    intro st h
    rw [List.foldl_cons]
    exact ih _ (processDir_statsOk env dest cf st rd h)

theorem foldWalk_statsLe (env : OrgEnv) (dest : String) (cf : Bool) :
    ∀ (walk : List (String × List String)) (st : OrgState),
      statsLe st (walk.foldl (processDir env dest cf) st) := by
  intro walk
  induction walk with
  | nil => intro st; exact statsLe_refl st
  | cons rd w ih =>
    intro st
    rw [List.foldl_cons]
    exact statsLe_trans (processDir_statsLe env dest cf st rd) (ih _)

theorem processDir_skip (env : OrgEnv) (dest : String) (cf : Bool) (st : OrgState)
    (rd : String × List String) (h : skipDir dest rd.1 = true) :
    processDir env dest cf st rd = st := by
  unfold processDir
  rw [if_pos h]

theorem organize_filter_skip (env : OrgEnv) (dest : String) (cf : Bool) (fs0 : List String)
    (walk : List (String × List String)) :
    organize_photos env walk dest cf fs0 =
      organize_photos env (walk.filter (fun rd => !skipDir dest rd.1)) dest cf fs0 := by
  unfold organize_photos
  generalize initState fs0 = st
  induction walk generalizing st with
  | nil => rfl
  | cons rd w ih =>
    rw [List.foldl_cons, List.filter_cons]
    by_cases h : skipDir dest rd.1
    · rw [processDir_skip env dest cf st rd h]
      have hb : (!skipDir dest rd.1) = false := by simp [h]
      rw [hb]
      simp only [Bool.false_eq_true, if_false]
      exact ih st
    · have hb : (!skipDir dest rd.1) = true := by simp [h]
      rw [hb]
      simp only [if_true]
      rw [List.foldl_cons]
      exact ih _

theorem processDir_cons (env : OrgEnv) (dest : String) (cf : Bool) (st : OrgState)
    (root fname : String) (rest : List String) (h : skipDir dest root = false) :
    processDir env dest cf st (root, fname :: rest) =
      rest.foldl (fun s f => processFile env dest cf s root f)
        (processFile env dest cf st root fname) := by
  unfold processDir
  rw [if_neg (by simp [h]), List.foldl_cons]

/-! ## organize_photos.py: date resolution -/

/-- A path split into its directory and final name component
    (`Path(p).parent` / `Path(p).name`). -/
structure FPath where
  dir : String
  base : String
deriving DecidableEq

/-- Outcome of opening a file and reading its EXIF block: a decode
    failure (any exception), or the `DateTimeOriginal` and
    `DateTimeDigitized` tags each possibly absent. -/
inductive ExifData where
  | fail : ExifData
  | tags (original digitized : Option DateTime) : ExifData
deriving DecidableEq

/-- The filesystem as the date-resolution code observes it. `birth` is
    the `os.stat` creation (or metadata-change) timestamp; the paths the
    organizer resolves come from its own `os.walk` listing, so this read
    is modelled total, as §4.3 of the spec words it. -/
structure PhotoFS where
  pathExists : FPath → Bool
  exifRead : FPath → ExifData
  birth : FPath → DateTime

/-- `get_exif_date`: `DateTimeOriginal` preferred over
    `DateTimeDigitized`; a decode failure is swallowed into `none`. -/
def get_exif_date (fs : PhotoFS) (p : FPath) : Option DateTime :=
  match fs.exifRead p with
  | .fail => none
  | .tags o d =>
    match o with
    | some v => some v
    | none => d

/-- `get_file_creation_date` on a run in which its unguarded `os.stat`
    call succeeds; `get_file_creation_date_e` below keeps the failure
    path, and `get_photo_date_e_total` relates the two models. -/
def get_file_creation_date (fs : PhotoFS) (p : FPath) : DateTime := fs.birth p

/-- `raw_extensions = ['.nef', '.arw', '.dng', '.raf']`. -/
def raw_extensions : List String := [".nef", ".arw", ".dng", ".raf"]

/-- The candidate companion paths `find_matching_raw_file` probes, in
    probe order: each extension in list order, lowercase form first. -/
def rawCandidates (p : FPath) : List FPath :=
  (raw_extensions.flatMap (fun re => [re, myUpper re])).map
    (fun e => ⟨p.dir, pathStem p.base ++ e⟩)

/-- `find_matching_raw_file`: the first probed candidate that exists. -/
def find_matching_raw_file (fs : PhotoFS) (p : FPath) : Option FPath :=
  (rawCandidates p).find? fs.pathExists

/-- The processed formats expected to have a RAW sibling. -/
def companionExts : List String := [".jpg", ".jpeg", ".cr2", ".png", ".xmp"]

/-- `get_photo_date`: for the processed formats, defer entirely to the
    companion RAW file when one exists (its EXIF date, else its
    filesystem date), else fall back to the file's own filesystem date;
    for every other format, own EXIF date else own filesystem date. -/
def get_photo_date (fs : PhotoFS) (p : FPath) : DateTime :=
  if myLower (pathSuffix p.base) ∈ companionExts then
    match find_matching_raw_file fs p with
    | some raw =>
      match get_exif_date fs raw with
      | some d => d
      | none => get_file_creation_date fs raw
    | none => get_file_creation_date fs p
  else
    match get_exif_date fs p with
    | some d => d
    | none => get_file_creation_date fs p

/-! ### Date-resolution lemmas -/

theorem string_append_left_cancel {a b c : String} (h : a ++ b = a ++ c) : b = c := by
  apply string_eq_of_data
  have hd := congrArg String.data h
  rw [string_data_append, string_data_append] at hd
  exact List.append_cancel_left hd

theorem rawCandidates_eq (p : FPath) :
    rawCandidates p =
      [⟨p.dir, pathStem p.base ++ ".nef"⟩, ⟨p.dir, pathStem p.base ++ ".NEF"⟩,
       ⟨p.dir, pathStem p.base ++ ".arw"⟩, ⟨p.dir, pathStem p.base ++ ".ARW"⟩,
       ⟨p.dir, pathStem p.base ++ ".dng"⟩, ⟨p.dir, pathStem p.base ++ ".DNG"⟩,
       ⟨p.dir, pathStem p.base ++ ".raf"⟩, ⟨p.dir, pathStem p.base ++ ".RAF"⟩] := rfl

theorem suffix_eq_of_base_eq {p : FPath} {e : String}
    (heq : p.base = pathStem p.base ++ e) : pathSuffix p.base = e := by
  apply string_append_left_cancel (a := pathStem p.base)
  rw [pathStem_append_pathSuffix]
  exact heq

theorem find_matching_ne_self (fs : PhotoFS) (p : FPath)
    (hext : myLower (pathSuffix p.base) ∈ companionExts) (r : FPath)
    (hr : find_matching_raw_file fs p = some r) : r ≠ p := by
  intro he
  subst he
  have hmem := List.mem_of_find?_eq_some hr
  rw [rawCandidates_eq] at hmem
  simp only [List.mem_cons, List.not_mem_nil, or_false] at hmem
  rcases hmem with h | h | h | h | h | h | h | h <;>
    (have hb := congrArg FPath.base h
     have hsfx := suffix_eq_of_base_eq hb
     rw [hsfx] at hext
     revert hext
     decide)

/-- Override the EXIF read at exactly one path, leaving existence probes
    and filesystem dates untouched. -/
def overrideExif (fs : PhotoFS) (p : FPath) (v : ExifData) : PhotoFS :=
  { fs with exifRead := fun q => if q = p then v else fs.exifRead q }

theorem get_photo_date_override (fs : PhotoFS) (p : FPath) (v : ExifData)
    (hext : myLower (pathSuffix p.base) ∈ companionExts) :
    get_photo_date (overrideExif fs p v) p = get_photo_date fs p := by
  unfold get_photo_date
  rw [if_pos hext, if_pos hext]
  have hfind : find_matching_raw_file (overrideExif fs p v) p =
      find_matching_raw_file fs p := rfl
  rw [hfind]
  cases hr : find_matching_raw_file fs p with
  | none => rfl
  | some r =>
    dsimp only
    have hne := find_matching_ne_self fs p hext r hr
    have hexif : get_exif_date (overrideExif fs p v) r = get_exif_date fs r := by
      unfold get_exif_date overrideExif
      dsimp only
      rw [if_neg hne]
    rw [hexif]
    cases get_exif_date fs r <;> rfl

theorem get_photo_date_companion (fs : PhotoFS) (p : FPath)
    (hext : myLower (pathSuffix p.base) ∈ companionExts) :
    get_photo_date fs p =
      (match find_matching_raw_file fs p with
       | some r => (get_exif_date fs r).getD (get_file_creation_date fs r)
       | none => get_file_creation_date fs p) := by
  unfold get_photo_date
  rw [if_pos hext]
  cases find_matching_raw_file fs p with
  | none => rfl
  | some r =>
    dsimp only
    cases get_exif_date fs r <;> rfl

/-- Modelled from the amended claim C8: probe `dir/stem + ext` for the
    eight extension forms in their fixed order and return the first
    probe that exists, the base name taken verbatim. -/
def specFindRawExact (fs : PhotoFS) (p : FPath) : Option FPath :=
  if fs.pathExists ⟨p.dir, pathStem p.base ++ ".nef"⟩ then
    some ⟨p.dir, pathStem p.base ++ ".nef"⟩
  else if fs.pathExists ⟨p.dir, pathStem p.base ++ ".NEF"⟩ then
    some ⟨p.dir, pathStem p.base ++ ".NEF"⟩
  else if fs.pathExists ⟨p.dir, pathStem p.base ++ ".arw"⟩ then
    some ⟨p.dir, pathStem p.base ++ ".arw"⟩
  else if fs.pathExists ⟨p.dir, pathStem p.base ++ ".ARW"⟩ then
    some ⟨p.dir, pathStem p.base ++ ".ARW"⟩
  else if fs.pathExists ⟨p.dir, pathStem p.base ++ ".dng"⟩ then
    some ⟨p.dir, pathStem p.base ++ ".dng"⟩
  else if fs.pathExists ⟨p.dir, pathStem p.base ++ ".DNG"⟩ then
    some ⟨p.dir, pathStem p.base ++ ".DNG"⟩
  else if fs.pathExists ⟨p.dir, pathStem p.base ++ ".raf"⟩ then
    some ⟨p.dir, pathStem p.base ++ ".raf"⟩
  else if fs.pathExists ⟨p.dir, pathStem p.base ++ ".RAF"⟩ then
    some ⟨p.dir, pathStem p.base ++ ".RAF"⟩
  else none

theorem find_matching_eq_specExact (fs : PhotoFS) (p : FPath) :
    find_matching_raw_file fs p = specFindRawExact fs p := by
  unfold find_matching_raw_file specFindRawExact
  rw [rawCandidates_eq]
  by_cases h1 : fs.pathExists ⟨p.dir, pathStem p.base ++ ".nef"⟩
  · rw [List.find?_cons_of_pos _ h1, if_pos h1]
  · rw [List.find?_cons_of_neg _ (by simp [h1]), if_neg h1]
    by_cases h2 : fs.pathExists ⟨p.dir, pathStem p.base ++ ".NEF"⟩
    · rw [List.find?_cons_of_pos _ h2, if_pos h2]
    · rw [List.find?_cons_of_neg _ (by simp [h2]), if_neg h2]
      by_cases h3 : fs.pathExists ⟨p.dir, pathStem p.base ++ ".arw"⟩
      · rw [List.find?_cons_of_pos _ h3, if_pos h3]
      · rw [List.find?_cons_of_neg _ (by simp [h3]), if_neg h3]
        by_cases h4 : fs.pathExists ⟨p.dir, pathStem p.base ++ ".ARW"⟩
        · rw [List.find?_cons_of_pos _ h4, if_pos h4]
        · rw [List.find?_cons_of_neg _ (by simp [h4]), if_neg h4]
          by_cases h5 : fs.pathExists ⟨p.dir, pathStem p.base ++ ".dng"⟩
          · rw [List.find?_cons_of_pos _ h5, if_pos h5]
          · rw [List.find?_cons_of_neg _ (by simp [h5]), if_neg h5]
            by_cases h6 : fs.pathExists ⟨p.dir, pathStem p.base ++ ".DNG"⟩
            · rw [List.find?_cons_of_pos _ h6, if_pos h6]
            · rw [List.find?_cons_of_neg _ (by simp [h6]), if_neg h6]
              by_cases h7 : fs.pathExists ⟨p.dir, pathStem p.base ++ ".raf"⟩
              · rw [List.find?_cons_of_pos _ h7, if_pos h7]
              · rw [List.find?_cons_of_neg _ (by simp [h7]), if_neg h7]
                by_cases h8 : fs.pathExists ⟨p.dir, pathStem p.base ++ ".RAF"⟩
                · rw [List.find?_cons_of_pos _ h8, if_pos h8]
                · rw [List.find?_cons_of_neg _ (by simp [h8]), if_neg h8]
                  rfl

theorem find_matching_dir (fs : PhotoFS) (p : FPath) :
    ((find_matching_raw_file fs p).map FPath.dir).getD p.dir = p.dir := by
  cases hr : find_matching_raw_file fs p with
  | none => rfl
  | some r =>
    have hmem := List.mem_of_find?_eq_some hr
    rw [rawCandidates_eq] at hmem
    simp only [List.mem_cons, List.not_mem_nil, or_false] at hmem
    rcases hmem with rfl | rfl | rfl | rfl | rfl | rfl | rfl | rfl <;> rfl

/-- Modelled from claim C8's words: search the directory listing for a
    file sharing the base name case-insensitively, trying the candidate
    extensions in the fixed order, lowercase before uppercase. -/
def specFindRawCI (listing : List FPath) (p : FPath) : Option FPath :=
  [".nef", ".NEF", ".arw", ".ARW", ".dng", ".DNG", ".raf", ".RAF"].findSome?
    (fun e => listing.find?
      (fun f => f.dir == p.dir && myLower f.base == myLower (pathStem p.base ++ e)))

/-- The filesystem whose existing files are exactly `listing`
    (a case-sensitive directory, membership decided by path equality). -/
def dirFS (listing : List FPath) : PhotoFS :=
  { pathExists := fun q => listing.contains q
    exifRead := fun _ => ExifData.fail
    birth := fun _ => ⟨0, 0, 0, 0, 0, 0⟩ }

/-! ### Date resolution with the os.stat failure path kept -/

/-- The date-resolution filesystem with the `os.stat` failure path kept:
    `statRes` returns the creation timestamp, or the message of the
    `OSError` the unguarded `os.stat` call raises. `PhotoFS` above is the
    restriction of this model to runs in which every stat read succeeds
    (`get_photo_date_e_total` below relates the two). -/
structure PhotoFSE where
  pathExists : FPath → Bool
  exifRead : FPath → ExifData
  statRes : FPath → Except String DateTime

/-- `get_exif_date` over the fallible filesystem (unchanged: every decode
    failure is swallowed into `none` by the bare `except`). -/
def get_exif_date_e (fs : PhotoFSE) (p : FPath) : Option DateTime :=
  match fs.exifRead p with
  | .fail => none
  | .tags o d =>
    match o with
    | some v => some v
    | none => d

/-- `get_file_creation_date` with its real `os.stat` outcome: the
    function performs no exception handling, so a raised `OSError`
    propagates to its caller. -/
def get_file_creation_date_e (fs : PhotoFSE) (p : FPath) : Except String DateTime :=
  fs.statRes p

/-- `find_matching_raw_file` over the fallible filesystem (it only probes
    existence, which does not raise). -/
def find_matching_raw_file_e (fs : PhotoFSE) (p : FPath) : Option FPath :=
  (rawCandidates p).find? fs.pathExists

/-- `get_photo_date` with the stat failure path kept: a failing
    filesystem-date read escapes to the caller and is caught only by the
    per-file `try` of `organize_photos`. -/
def get_photo_date_e (fs : PhotoFSE) (p : FPath) : Except String DateTime :=
  if myLower (pathSuffix p.base) ∈ companionExts then
    match find_matching_raw_file_e fs p with
    | some raw =>
      match get_exif_date_e fs raw with
      | some d => Except.ok d
      | none => get_file_creation_date_e fs raw
    | none => get_file_creation_date_e fs p
  else
    match get_exif_date_e fs p with
    | some d => Except.ok d
    | none => get_file_creation_date_e fs p

/-- When every stat read succeeds, the fallible cascade agrees with the
    total model used for the companion-inheritance results above. -/
theorem get_photo_date_e_total (fs : PhotoFSE) (birth : FPath → DateTime)
    (hstat : ∀ q, fs.statRes q = Except.ok (birth q)) (p : FPath) :
    get_photo_date_e fs p =
      Except.ok (get_photo_date ⟨fs.pathExists, fs.exifRead, birth⟩ p) := by
  unfold get_photo_date_e get_photo_date
  by_cases hext : myLower (pathSuffix p.base) ∈ companionExts
  · rw [if_pos hext, if_pos hext]
    have hf : find_matching_raw_file_e fs p =
        find_matching_raw_file ⟨fs.pathExists, fs.exifRead, birth⟩ p := rfl
    rw [hf]
    cases find_matching_raw_file ⟨fs.pathExists, fs.exifRead, birth⟩ p with
    | none => exact hstat p
    | some r =>
      dsimp only
      have he : get_exif_date_e fs r =
          get_exif_date ⟨fs.pathExists, fs.exifRead, birth⟩ r := rfl
      rw [he]
      cases get_exif_date ⟨fs.pathExists, fs.exifRead, birth⟩ r with
      | none => exact hstat r
      | some d => rfl
  · rw [if_neg hext, if_neg hext]
    have he : get_exif_date_e fs p =
        get_exif_date ⟨fs.pathExists, fs.exifRead, birth⟩ p := rfl
    rw [he]
    cases get_exif_date ⟨fs.pathExists, fs.exifRead, birth⟩ p with
    | none => exact hstat p
    | some d => rfl

/-- Whether a fallible date resolution produced a date. -/
def exceptOkDT : Except String DateTime → Bool
  | .ok _ => true
  | .error _ => false

/-- A filesystem on which every stat read raises (a vanished or
    unreadable file). -/
def statFailFS : PhotoFSE :=
  { pathExists := fun _ => false
    exifRead := fun _ => ExifData.fail
    statRes := fun _ => Except.error "FileNotFoundError" }

/-- A filesystem on which every stat read succeeds. -/
def totalStatFS : PhotoFSE :=
  { pathExists := fun _ => false
    exifRead := fun _ => ExifData.fail
    statRes := fun _ => Except.ok ⟨1999, 9, 9, 9, 9, 9⟩ }

def c7Path : FPath := ⟨"d", "gone.jpg"⟩


/-! ### SequenceMatcher with the default autojunk heuristic -/

/-- Number of occurrences of `c` in `b` (the length of `b2j[c]`). -/
def countChar (b : List Char) (c : Char) : Nat :=
  (b.filter (fun x => x == c)).length

/-- The default autojunk test of `SequenceMatcher.__chain_b`: with
    `len(b) >= 200`, a character occurring more than `len(b) // 100 + 1`
    times is "popular" and is deleted from `b2j`, so it can neither seed
    nor chain a run in the main loop of `find_longest_match`. -/
def bPopular (b : List Char) (c : Char) : Bool :=
  decide (200 ≤ b.length) && decide (b.length / 100 + 1 < countChar b c)

/-- Longest common prefix that avoids positions junked out of `b2j`:
    each matched `b`-character must satisfy `pj c = false`. -/
def commonPrefixLenNJ (pj : Char → Bool) : List Char → List Char → Nat
  | a :: as, b :: bs =>
    if a = b ∧ pj b = false then commonPrefixLenNJ pj as bs + 1 else 0
  | _, _ => 0

/-- `cappedRun` through non-junked `b` positions only. -/
def cappedRunJ (pj : Char → Bool) (a b : List Char) (ahi bhi i j : Nat) : Nat :=
  commonPrefixLenNJ pj ((a.drop i).take (ahi - i)) ((b.drop j).take (bhi - j))

/-- One candidate step of the main loop with junked positions excluded. -/
def bestStepJ (pj : Char → Bool) (a b : List Char) (ahi bhi : Nat)
    (best : Block) (ij : Nat × Nat) : Block :=
  if best.k < cappedRunJ pj a b ahi bhi ij.1 ij.2 then
    ⟨ij.1, ij.2, cappedRunJ pj a b ahi bhi ij.1 ij.2⟩
  else best

/-- The main loop of `find_longest_match` over `b2j` with junked
    positions excluded (before the extension loops). -/
def findLongestMatchRawJ (pj : Char → Bool) (a b : List Char)
    (alo ahi blo bhi : Nat) : Block :=
  (allPairs alo ahi blo bhi).foldl (bestStepJ pj a b ahi bhi) ⟨alo, blo, 0⟩

/-- Do `a[i]` and `b[j]` exist and coincide? -/
def headMatch (a b : List Char) (i j : Nat) : Bool :=
  match a[i]?, b[j]? with
  | some ca, some cb => ca == cb
  | _, _ => false

/-- The first extension loop of `find_longest_match`: grow the best block
    to the left over matching characters (with `isjunk=None` the junk set
    `bjunk` is empty, so `not isbjunk(...)` passes for every character,
    popular ones included, and the later junk-extension loop is a no-op). -/
def extendLeft (a b : List Char) (alo blo : Nat) : Nat → Block → Block
  | 0, blk => blk
  | fuel + 1, blk =>
    if alo < blk.i ∧ blo < blk.j ∧ headMatch a b (blk.i - 1) (blk.j - 1) = true then
      extendLeft a b alo blo fuel ⟨blk.i - 1, blk.j - 1, blk.k + 1⟩
    else blk

/-- The second extension loop: grow the best block to the right over
    matching characters. -/
def extendRight (a b : List Char) (ahi bhi : Nat) : Nat → Block → Block
  | 0, blk => blk
  | fuel + 1, blk =>
    if blk.i + blk.k < ahi ∧ blk.j + blk.k < bhi ∧
        headMatch a b (blk.i + blk.k) (blk.j + blk.k) = true then
      extendRight a b ahi bhi fuel ⟨blk.i, blk.j, blk.k + 1⟩
    else blk

/-- `find_longest_match` with junk: the main loop over the purged `b2j`,
    then the two non-junk extension loops (the junk-extension loops are
    no-ops since `bjunk` is empty with `isjunk=None`). -/
def findLongestMatchJ (pj : Char → Bool) (a b : List Char)
    (alo ahi blo bhi : Nat) : Block :=
  extendRight a b ahi bhi ahi
    (extendLeft a b alo blo (findLongestMatchRawJ pj a b alo ahi blo bhi).i
      (findLongestMatchRawJ pj a b alo ahi blo bhi))

/-- `get_matching_blocks` total over `find_longest_match` with junk. -/
def matchBlocksTotalJ (pj : Char → Bool) (a b : List Char) :
    Nat → Nat → Nat → Nat → Nat → Nat
  | 0, _, _, _, _ => 0
  | fuel + 1, alo, ahi, blo, bhi =>
    if (findLongestMatchJ pj a b alo ahi blo bhi).k = 0 then 0
    else
      matchBlocksTotalJ pj a b fuel alo (findLongestMatchJ pj a b alo ahi blo bhi).i blo
          (findLongestMatchJ pj a b alo ahi blo bhi).j +
        (findLongestMatchJ pj a b alo ahi blo bhi).k +
        matchBlocksTotalJ pj a b fuel
          ((findLongestMatchJ pj a b alo ahi blo bhi).i +
            (findLongestMatchJ pj a b alo ahi blo bhi).k) ahi
          ((findLongestMatchJ pj a b alo ahi blo bhi).j +
            (findLongestMatchJ pj a b alo ahi blo bhi).k) bhi

/-- `M` with the default autojunk: the popularity predicate is computed
    once over the full second sequence. -/
def totalMatchesAJ (a b : List Char) : Nat :=
  matchBlocksTotalJ (bPopular b) a b (a.length + b.length + 1) 0 a.length 0 b.length

/-- `SequenceMatcher(None, a, b).ratio()` with the default autojunk. -/
def ratioAJ (a b : List Char) : ℚ :=
  if a.length + b.length = 0 then 1
  else (2 * totalMatchesAJ a b : ℚ) / ((a.length : ℚ) + (b.length : ℚ))

/-- `filename_similarity` from find_duplicates.py with the autojunk
    heuristic of its `SequenceMatcher(None, ...)` call kept:
    `filename_similarity` above is the junk-free ratio, and
    `ratioAJ_eq` shows the two coincide whenever the second lowered name
    is shorter than 200 characters. -/
def filename_similarity_code (name1 name2 : String) : ℚ :=
  ratioAJ (myLower name1).data (myLower name2).data
/-! ### With nothing junked the extension loops never fire -/

theorem commonPrefixLenNJ_false (pj : Char → Bool) (hpj : ∀ c, pj c = false) :
    ∀ x y : List Char, commonPrefixLenNJ pj x y = commonPrefixLen x y := by
  intro x
  induction x with
  | nil => intro y; cases y <;> rfl
  | cons a as ih =>
    intro y
    cases y with
    | nil => rfl
    | cons b bs =>
      rw [commonPrefixLenNJ, commonPrefixLen, ih bs]
      by_cases hab : a = b
      · rw [if_pos ⟨hab, hpj b⟩, if_pos hab]
      · rw [if_neg (fun h => hab h.1), if_neg hab]

theorem cappedRunJ_false (pj : Char → Bool) (hpj : ∀ c, pj c = false)
    (a b : List Char) (ahi bhi i j : Nat) :
    cappedRunJ pj a b ahi bhi i j = cappedRun a b ahi bhi i j := by
  unfold cappedRunJ cappedRun
  exact commonPrefixLenNJ_false pj hpj _ _

theorem findLongestMatchRawJ_false (pj : Char → Bool) (hpj : ∀ c, pj c = false)
    (a b : List Char) (alo ahi blo bhi : Nat) :
    findLongestMatchRawJ pj a b alo ahi blo bhi = findLongestMatch a b alo ahi blo bhi := by
  unfold findLongestMatchRawJ findLongestMatch
  have hstep : bestStepJ pj a b ahi bhi = bestStep a b ahi bhi := by
    funext best ij
    unfold bestStepJ bestStep
    rw [cappedRunJ_false pj hpj]
  rw [hstep]

theorem extendLeft_stop (a b : List Char) (alo blo : Nat) (blk : Block)
    (h : ¬(alo < blk.i ∧ blo < blk.j ∧ headMatch a b (blk.i - 1) (blk.j - 1) = true)) :
    ∀ fuel, extendLeft a b alo blo fuel blk = blk := by
  intro fuel
  cases fuel with
  | zero => rfl
  | succ fuel => rw [extendLeft, if_neg h]

theorem extendRight_stop (a b : List Char) (ahi bhi : Nat) (blk : Block)
    (h : ¬(blk.i + blk.k < ahi ∧ blk.j + blk.k < bhi ∧
      headMatch a b (blk.i + blk.k) (blk.j + blk.k) = true)) :
    ∀ fuel, extendRight a b ahi bhi fuel blk = blk := by
  intro fuel
  cases fuel with
  | zero => rfl
  | succ fuel => rw [extendRight, if_neg h]

theorem bestStep_k_le (a b : List Char) (ahi bhi : Nat) (b0 : Block) (x : Nat × Nat) :
    b0.k ≤ (bestStep a b ahi bhi b0 x).k ∧
      cappedRun a b ahi bhi x.1 x.2 ≤ (bestStep a b ahi bhi b0 x).k := by
  unfold bestStep
  split
  · rename_i h
    exact ⟨Nat.le_of_lt h, Nat.le_refl _⟩
  · rename_i h
    exact ⟨Nat.le_refl _, by omega⟩

theorem foldl_bestStep_ge (a b : List Char) (ahi bhi : Nat) :
    ∀ (l : List (Nat × Nat)) (b0 : Block),
      b0.k ≤ (l.foldl (bestStep a b ahi bhi) b0).k ∧
        ∀ x ∈ l, cappedRun a b ahi bhi x.1 x.2 ≤ (l.foldl (bestStep a b ahi bhi) b0).k := by
  intro l
  induction l with
  | nil => intro b0; exact ⟨Nat.le_refl _, by simp⟩
  | cons x xs ih =>
    intro b0
    rw [List.foldl_cons]
    obtain ⟨h1, h2⟩ := ih (bestStep a b ahi bhi b0 x)
    have hb := bestStep_k_le a b ahi bhi b0 x
    refine ⟨Nat.le_trans hb.1 h1, ?_⟩
    intro y hy
    rcases List.mem_cons.1 hy with rfl | hy
    · exact Nat.le_trans hb.2 h1
    · exact h2 y hy

theorem allPairs_mem_intro {alo ahi blo bhi i j : Nat}
    (h1 : alo ≤ i) (h2 : i < ahi) (h3 : blo ≤ j) (h4 : j < bhi) :
    (i, j) ∈ allPairs alo ahi blo bhi := by
  unfold allPairs
  refine List.mem_flatten.2 ⟨(natRange blo bhi).map (fun j => (i, j)), ?_, ?_⟩
  · refine List.mem_map.2 ⟨i, ?_, rfl⟩
    unfold natRange
    exact List.mem_map.2 ⟨i - alo, List.mem_range.2 (by omega), by omega⟩
  · refine List.mem_map.2 ⟨j, ?_, rfl⟩
    unfold natRange
    exact List.mem_map.2 ⟨j - blo, List.mem_range.2 (by omega), by omega⟩

theorem foldl_bestStep_inv_pos (a b : List Char) (ahi bhi : Nat) (P : Block → Prop)
    (l : List (Nat × Nat)) :
    ∀ b0 : Block, P b0 →
      (∀ x ∈ l, 0 < cappedRun a b ahi bhi x.1 x.2 →
        P ⟨x.1, x.2, cappedRun a b ahi bhi x.1 x.2⟩) →
      P (l.foldl (bestStep a b ahi bhi) b0) := by
  induction l with
  | nil => intro b0 h0 _; exact h0
  | cons x xs ih =>
    intro b0 h0 hl
    rw [List.foldl_cons]
    refine ih _ ?_ ?_
    · unfold bestStep
      split
      · rename_i h
        exact hl x (by simp) (by omega)
      · exact h0
    · intro y hy; exact hl y (by simp [hy])

theorem findLongestMatch_exact (a b : List Char) (alo ahi blo bhi : Nat) :
    findLongestMatch a b alo ahi blo bhi = ⟨alo, blo, 0⟩ ∨
      (1 ≤ (findLongestMatch a b alo ahi blo bhi).k ∧
       (findLongestMatch a b alo ahi blo bhi).k =
         cappedRun a b ahi bhi (findLongestMatch a b alo ahi blo bhi).i
           (findLongestMatch a b alo ahi blo bhi).j ∧
       alo ≤ (findLongestMatch a b alo ahi blo bhi).i ∧
       (findLongestMatch a b alo ahi blo bhi).i < ahi ∧
       blo ≤ (findLongestMatch a b alo ahi blo bhi).j ∧
       (findLongestMatch a b alo ahi blo bhi).j < bhi) := by
  unfold findLongestMatch
  refine foldl_bestStep_inv_pos a b ahi bhi
    (fun blk => blk = ⟨alo, blo, 0⟩ ∨
      (1 ≤ blk.k ∧ blk.k = cappedRun a b ahi bhi blk.i blk.j ∧
        alo ≤ blk.i ∧ blk.i < ahi ∧ blo ≤ blk.j ∧ blk.j < bhi)) _ _ (Or.inl rfl) ?_
  intro x hx hpos
  have hm := mem_allPairs hx
  exact Or.inr ⟨hpos, rfl, hm.1, hm.2.1, hm.2.2.1, hm.2.2.2⟩

theorem headMatch_some {a b : List Char} {i j : Nat} (h : headMatch a b i j = true) :
    ∃ c, a[i]? = some c ∧ b[j]? = some c := by
  unfold headMatch at h
  cases ha : a[i]? with
  | none => rw [ha] at h; cases b[j]? <;> simp at h
  | some ca =>
    cases hb : b[j]? with
    | none => rw [ha, hb] at h; simp at h
    | some cb =>
      rw [ha, hb] at h
      have hcc : ca = cb := eq_of_beq h
      exact ⟨ca, rfl, congrArg some hcc.symm⟩

theorem commonPrefixLen_stop : ∀ (x y : List Char) (k : Nat) (c : Char),
    commonPrefixLen x y = k → x[k]? = some c → y[k]? = some c → False := by
  intro x
  induction x with
  | nil => intro y k c h hx hy; simp at hx
  | cons a as ih =>
    intro y k c h hx hy
    cases y with
    | nil => simp at hy
    | cons b bs =>
      rw [commonPrefixLen] at h
      by_cases hab : a = b
      · rw [if_pos hab] at h
        cases k with
        | zero => omega
        | succ k =>
          rw [List.getElem?_cons_succ] at hx hy
          exact ih bs k c (by omega) hx hy
      · rw [if_neg hab] at h
        cases k with
        | succ k => omega
        | zero =>
          rw [List.getElem?_cons_zero, Option.some.injEq] at hx hy
          exact hab (hx.trans hy.symm)

theorem slice_getElem (l : List Char) (i hi k : Nat) (hk : k < hi - i) :
    ((l.drop i).take (hi - i))[k]? = l[i + k]? := by
  rw [List.getElem?_take, if_pos hk, List.getElem?_drop]

theorem cappedRun_succ_at (a b : List Char) (ahi bhi i j k : Nat) (c : Char)
    (hk : cappedRun a b ahi bhi i j = k) (hia : i + k < ahi) (hjb : j + k < bhi)
    (hx : a[i + k]? = some c) (hy : b[j + k]? = some c) : False := by
  refine commonPrefixLen_stop ((a.drop i).take (ahi - i)) ((b.drop j).take (bhi - j)) k c hk ?_ ?_
  · rw [slice_getElem a i ahi k (by omega)]; exact hx
  · rw [slice_getElem b j bhi k (by omega)]; exact hy

theorem cappedRun_pred_succ (a b : List Char) (ahi bhi i j : Nat) (c : Char)
    (hi0 : 0 < i) (hj0 : 0 < j) (hia : i ≤ ahi) (hjb : j ≤ bhi)
    (hx : a[i - 1]? = some c) (hy : b[j - 1]? = some c) :
    cappedRun a b ahi bhi (i - 1) (j - 1) = cappedRun a b ahi bhi i j + 1 := by
  obtain ⟨hlta, hvala⟩ := List.getElem?_eq_some.1 hx
  obtain ⟨hltb, hvalb⟩ := List.getElem?_eq_some.1 hy
  have hda : a.drop (i - 1) = c :: a.drop i := by
    rw [List.drop_eq_getElem_cons hlta, hvala, show i - 1 + 1 = i from by omega]
  have hdb : b.drop (j - 1) = c :: b.drop j := by
    rw [List.drop_eq_getElem_cons hltb, hvalb, show j - 1 + 1 = j from by omega]
  unfold cappedRun
  rw [show ahi - (i - 1) = (ahi - i) + 1 from by omega,
    show bhi - (j - 1) = (bhi - j) + 1 from by omega, hda, hdb,
    List.take_succ_cons, List.take_succ_cons, commonPrefixLen, if_pos rfl]

theorem findLongestMatch_noextL (a b : List Char) (alo ahi blo bhi : Nat) :
    ¬(alo < (findLongestMatch a b alo ahi blo bhi).i ∧
      blo < (findLongestMatch a b alo ahi blo bhi).j ∧
      headMatch a b ((findLongestMatch a b alo ahi blo bhi).i - 1)
        ((findLongestMatch a b alo ahi blo bhi).j - 1) = true) := by
  rintro ⟨h1, h2, h3⟩
  obtain ⟨c, hx, hy⟩ := headMatch_some h3
  rcases findLongestMatch_exact a b alo ahi blo bhi with h0 | ⟨hk1, hk, hi0, hi, hj0, hj⟩
  · rw [h0] at h1
    exact absurd h1 (lt_irrefl alo)
  · have hcap := cappedRun_pred_succ a b ahi bhi
      (findLongestMatch a b alo ahi blo bhi).i (findLongestMatch a b alo ahi blo bhi).j c
      (by omega) (by omega) (by omega) (by omega) hx hy
    have hmem : ((findLongestMatch a b alo ahi blo bhi).i - 1,
        (findLongestMatch a b alo ahi blo bhi).j - 1) ∈ allPairs alo ahi blo bhi :=
      allPairs_mem_intro (by omega) (by omega) (by omega) (by omega)
    have hge : cappedRun a b ahi bhi ((findLongestMatch a b alo ahi blo bhi).i - 1)
        ((findLongestMatch a b alo ahi blo bhi).j - 1) ≤
          (findLongestMatch a b alo ahi blo bhi).k :=
      (foldl_bestStep_ge a b ahi bhi (allPairs alo ahi blo bhi) ⟨alo, blo, 0⟩).2 _ hmem
    rw [hcap] at hge
    omega

theorem findLongestMatch_noextR (a b : List Char) (alo ahi blo bhi : Nat) :
    ¬((findLongestMatch a b alo ahi blo bhi).i + (findLongestMatch a b alo ahi blo bhi).k < ahi ∧
      (findLongestMatch a b alo ahi blo bhi).j + (findLongestMatch a b alo ahi blo bhi).k < bhi ∧
      headMatch a b
        ((findLongestMatch a b alo ahi blo bhi).i + (findLongestMatch a b alo ahi blo bhi).k)
        ((findLongestMatch a b alo ahi blo bhi).j + (findLongestMatch a b alo ahi blo bhi).k) =
        true) := by
  rintro ⟨h1, h2, h3⟩
  obtain ⟨c, hx, hy⟩ := headMatch_some h3
  rcases findLongestMatch_exact a b alo ahi blo bhi with h0 | ⟨hk1, hk, hi0, hi, hj0, hj⟩
  · have hik : (findLongestMatch a b alo ahi blo bhi).i = alo := by rw [h0]
    have hjk : (findLongestMatch a b alo ahi blo bhi).j = blo := by rw [h0]
    have hkk : (findLongestMatch a b alo ahi blo bhi).k = 0 := by rw [h0]
    rw [hik, hkk] at h1
    rw [hjk, hkk] at h2
    rw [hik, hkk] at hx
    rw [hjk, hkk] at hy
    have hmem : (alo, blo) ∈ allPairs alo ahi blo bhi :=
      allPairs_mem_intro (le_refl _) (by omega) (le_refl _) (by omega)
    have hge : cappedRun a b ahi bhi alo blo ≤ (findLongestMatch a b alo ahi blo bhi).k :=
      (foldl_bestStep_ge a b ahi bhi (allPairs alo ahi blo bhi) ⟨alo, blo, 0⟩).2 _ hmem
    rw [hkk] at hge
    exact cappedRun_succ_at a b ahi bhi alo blo 0 c (by omega) h1 h2 hx hy
  · exact cappedRun_succ_at a b ahi bhi
      (findLongestMatch a b alo ahi blo bhi).i (findLongestMatch a b alo ahi blo bhi).j
      (findLongestMatch a b alo ahi blo bhi).k c hk.symm h1 h2 hx hy

theorem findLongestMatchJ_false (pj : Char → Bool) (hpj : ∀ c, pj c = false)
    (a b : List Char) (alo ahi blo bhi : Nat) :
    findLongestMatchJ pj a b alo ahi blo bhi = findLongestMatch a b alo ahi blo bhi := by
  unfold findLongestMatchJ
  rw [findLongestMatchRawJ_false pj hpj]
  rw [extendLeft_stop a b alo blo _ (findLongestMatch_noextL a b alo ahi blo bhi)]
  rw [extendRight_stop a b ahi bhi _ (findLongestMatch_noextR a b alo ahi blo bhi)]

theorem matchBlocksTotalJ_false (pj : Char → Bool) (hpj : ∀ c, pj c = false)
    (a b : List Char) :
    ∀ fuel alo ahi blo bhi,
      matchBlocksTotalJ pj a b fuel alo ahi blo bhi =
        matchBlocksTotal a b fuel alo ahi blo bhi := by
  intro fuel
  induction fuel with
  | zero => intro alo ahi blo bhi; rfl
  | succ fuel ih =>
    intro alo ahi blo bhi
    rw [matchBlocksTotalJ, matchBlocksTotal, findLongestMatchJ_false pj hpj]
    simp only [ih]

theorem bPopular_short {b : List Char} (hb : b.length < 200) (c : Char) :
    bPopular b c = false := by
  unfold bPopular
  rw [decide_eq_false (by omega), Bool.false_and]

theorem totalMatchesAJ_eq (a b : List Char) (hb : b.length < 200) :
    totalMatchesAJ a b = totalMatches a b := by
  unfold totalMatchesAJ totalMatches
  exact matchBlocksTotalJ_false (bPopular b) (bPopular_short hb) a b _ _ _ _ _

theorem ratioAJ_eq (a b : List Char) (hb : b.length < 200) : ratioAJ a b = ratioQ a b := by
  unfold ratioAJ ratioQ
  rw [totalMatchesAJ_eq a b hb]
/-! ### The autojunk ratio still lies in [0, 1] -/

theorem commonPrefixLenNJ_le (pj : Char → Bool) :
    ∀ x y : List Char, commonPrefixLenNJ pj x y ≤ commonPrefixLen x y := by
  intro x
  induction x with
  | nil => intro y; cases y <;> simp [commonPrefixLenNJ]
  | cons a as ih =>
    intro y
    cases y with
    | nil => simp [commonPrefixLenNJ]
    | cons b bs =>
      rw [commonPrefixLenNJ, commonPrefixLen]
      by_cases hab : a = b
      · rw [if_pos hab]
        by_cases hj : pj b = false
        · rw [if_pos ⟨hab, hj⟩]
          exact Nat.succ_le_succ (ih bs)
        · rw [if_neg (fun h => hj h.2)]
          omega
      · rw [if_neg (fun h => hab h.1), if_neg hab]

theorem cappedRunJ_le_left (pj : Char → Bool) (a b : List Char) (ahi bhi i j : Nat) :
    cappedRunJ pj a b ahi bhi i j ≤ ahi - i :=
  le_trans (commonPrefixLenNJ_le pj _ _) (cappedRun_le_left a b ahi bhi i j)

theorem cappedRunJ_le_right (pj : Char → Bool) (a b : List Char) (ahi bhi i j : Nat) :
    cappedRunJ pj a b ahi bhi i j ≤ bhi - j :=
  le_trans (commonPrefixLenNJ_le pj _ _) (cappedRun_le_right a b ahi bhi i j)

theorem foldl_bestStepJ_inv (pj : Char → Bool) (a b : List Char) (ahi bhi : Nat)
    (P : Block → Prop) (l : List (Nat × Nat)) :
    ∀ b0 : Block, P b0 →
      (∀ x ∈ l, P ⟨x.1, x.2, cappedRunJ pj a b ahi bhi x.1 x.2⟩) →
      P (l.foldl (bestStepJ pj a b ahi bhi) b0) := by
  induction l with
  | nil => intro b0 h0 _; exact h0
  | cons x xs ih =>
    intro b0 h0 hl
    rw [List.foldl_cons]
    refine ih _ ?_ ?_
    · unfold bestStepJ
      split
      · exact hl x (by simp)
      · exact h0
    · intro y hy; exact hl y (by simp [hy])

theorem foldl_bestStepJ_const (pj : Char → Bool) (a b : List Char) (ahi bhi : Nat)
    (l : List (Nat × Nat)) (b0 : Block)
    (hl : ∀ x : Nat × Nat, cappedRunJ pj a b ahi bhi x.1 x.2 ≤ b0.k) :
    l.foldl (bestStepJ pj a b ahi bhi) b0 = b0 := by
  induction l with
  | nil => rfl
  | cons x xs ih =>
    rw [List.foldl_cons]
    have hx := hl x
    have hstep : bestStepJ pj a b ahi bhi b0 x = b0 := by
      unfold bestStepJ
      rw [if_neg (by omega)]
    rw [hstep]
    exact ih

theorem extendLeft_inv (a b : List Char) (alo blo ahi bhi : Nat) :
    ∀ (fuel : Nat) (blk : Block),
      alo ≤ blk.i → blo ≤ blk.j → blk.i + blk.k ≤ ahi → blk.j + blk.k ≤ bhi →
      alo ≤ (extendLeft a b alo blo fuel blk).i ∧
        blo ≤ (extendLeft a b alo blo fuel blk).j ∧
        (extendLeft a b alo blo fuel blk).i + (extendLeft a b alo blo fuel blk).k ≤ ahi ∧
        (extendLeft a b alo blo fuel blk).j + (extendLeft a b alo blo fuel blk).k ≤ bhi := by
  intro fuel
  induction fuel with
  | zero => intro blk h1 h2 h3 h4; exact ⟨h1, h2, h3, h4⟩
  | succ fuel ih =>
    intro blk h1 h2 h3 h4
    rw [extendLeft]
    split
    · rename_i h
      obtain ⟨ha, hb, -⟩ := h
      exact ih ⟨blk.i - 1, blk.j - 1, blk.k + 1⟩ (by dsimp only; omega) (by dsimp only; omega)
        (by dsimp only; omega) (by dsimp only; omega)
    · exact ⟨h1, h2, h3, h4⟩

theorem extendRight_inv (a b : List Char) (ahi bhi alo blo : Nat) :
    ∀ (fuel : Nat) (blk : Block),
      alo ≤ blk.i → blo ≤ blk.j → blk.i + blk.k ≤ ahi → blk.j + blk.k ≤ bhi →
      alo ≤ (extendRight a b ahi bhi fuel blk).i ∧
        blo ≤ (extendRight a b ahi bhi fuel blk).j ∧
        (extendRight a b ahi bhi fuel blk).i + (extendRight a b ahi bhi fuel blk).k ≤ ahi ∧
        (extendRight a b ahi bhi fuel blk).j + (extendRight a b ahi bhi fuel blk).k ≤ bhi := by
  intro fuel
  induction fuel with
  | zero => intro blk h1 h2 h3 h4; exact ⟨h1, h2, h3, h4⟩
  | succ fuel ih =>
    intro blk h1 h2 h3 h4
    rw [extendRight]
    split
    · rename_i h
      obtain ⟨ha, hb, -⟩ := h
      exact ih ⟨blk.i, blk.j, blk.k + 1⟩ (by dsimp only; omega) (by dsimp only; omega)
        (by dsimp only; omega) (by dsimp only; omega)
    · exact ⟨h1, h2, h3, h4⟩

theorem findLongestMatchRawJ_inv (pj : Char → Bool) (a b : List Char)
    (alo ahi blo bhi : Nat) (halo : alo ≤ ahi) (hblo : blo ≤ bhi) :
    alo ≤ (findLongestMatchRawJ pj a b alo ahi blo bhi).i ∧
      blo ≤ (findLongestMatchRawJ pj a b alo ahi blo bhi).j ∧
      (findLongestMatchRawJ pj a b alo ahi blo bhi).i +
        (findLongestMatchRawJ pj a b alo ahi blo bhi).k ≤ ahi ∧
      (findLongestMatchRawJ pj a b alo ahi blo bhi).j +
        (findLongestMatchRawJ pj a b alo ahi blo bhi).k ≤ bhi := by
  unfold findLongestMatchRawJ
  refine foldl_bestStepJ_inv pj a b ahi bhi
    (fun blk => alo ≤ blk.i ∧ blo ≤ blk.j ∧ blk.i + blk.k ≤ ahi ∧ blk.j + blk.k ≤ bhi) _ _
    ⟨le_refl _, le_refl _, by dsimp only; omega, by dsimp only; omega⟩ ?_
  intro x hx
  have hm := mem_allPairs hx
  have hcl := cappedRunJ_le_left pj a b ahi bhi x.1 x.2
  have hcr := cappedRunJ_le_right pj a b ahi bhi x.1 x.2
  refine ⟨?_, ?_, ?_, ?_⟩ <;> dsimp only <;> omega

theorem findLongestMatchJ_inv (pj : Char → Bool) (a b : List Char)
    (alo ahi blo bhi : Nat) (halo : alo ≤ ahi) (hblo : blo ≤ bhi) :
    alo ≤ (findLongestMatchJ pj a b alo ahi blo bhi).i ∧
      blo ≤ (findLongestMatchJ pj a b alo ahi blo bhi).j ∧
      (findLongestMatchJ pj a b alo ahi blo bhi).i +
        (findLongestMatchJ pj a b alo ahi blo bhi).k ≤ ahi ∧
      (findLongestMatchJ pj a b alo ahi blo bhi).j +
        (findLongestMatchJ pj a b alo ahi blo bhi).k ≤ bhi := by
  unfold findLongestMatchJ
  obtain ⟨h1, h2, h3, h4⟩ := findLongestMatchRawJ_inv pj a b alo ahi blo bhi halo hblo
  obtain ⟨g1, g2, g3, g4⟩ := extendLeft_inv a b alo blo ahi bhi _ _ h1 h2 h3 h4
  exact extendRight_inv a b ahi bhi alo blo _ _ g1 g2 g3 g4

theorem matchBlocksTotalJ_le (pj : Char → Bool) (a b : List Char) :
    ∀ fuel alo ahi blo bhi, alo ≤ ahi → blo ≤ bhi →
      matchBlocksTotalJ pj a b fuel alo ahi blo bhi ≤ ahi - alo ∧
        matchBlocksTotalJ pj a b fuel alo ahi blo bhi ≤ bhi - blo := by
  intro fuel
  induction fuel with
  | zero => intro alo ahi blo bhi _ _; simp [matchBlocksTotalJ]
  | succ fuel ih =>
    intro alo ahi blo bhi halo hblo
    by_cases hk : (findLongestMatchJ pj a b alo ahi blo bhi).k = 0
    · rw [matchBlocksTotalJ, if_pos hk]
      simp
    · rw [matchBlocksTotalJ, if_neg hk]
      obtain ⟨h1, h2, h3, h4⟩ := findLongestMatchJ_inv pj a b alo ahi blo bhi halo hblo
      have hL := ih alo (findLongestMatchJ pj a b alo ahi blo bhi).i blo
        (findLongestMatchJ pj a b alo ahi blo bhi).j h1 h2
      have hR := ih
        ((findLongestMatchJ pj a b alo ahi blo bhi).i +
          (findLongestMatchJ pj a b alo ahi blo bhi).k) ahi
        ((findLongestMatchJ pj a b alo ahi blo bhi).j +
          (findLongestMatchJ pj a b alo ahi blo bhi).k) bhi (by omega) (by omega)
      constructor <;> omega

theorem ratioAJ_nonneg (a b : List Char) : 0 ≤ ratioAJ a b := by
  unfold ratioAJ
  split
  · norm_num
  · apply div_nonneg <;> positivity

theorem ratioAJ_le_one (a b : List Char) : ratioAJ a b ≤ 1 := by
  unfold ratioAJ
  split
  · norm_num
  · rename_i h
    have hm := matchBlocksTotalJ_le (bPopular b) a b (a.length + b.length + 1) 0 a.length
      0 b.length (Nat.zero_le _) (Nat.zero_le _)
    have hM : 2 * totalMatchesAJ a b ≤ a.length + b.length := by
      unfold totalMatchesAJ
      omega
    have hpos : (0 : ℚ) < (a.length : ℚ) + (b.length : ℚ) := by
      have : 0 < a.length + b.length := Nat.pos_of_ne_zero h
      exact_mod_cast this
    rw [div_le_one hpos]
    exact_mod_cast hM
/-! ### A 201-character pair on which autojunk flips the decision -/

def xs200 : List Char := List.replicate 200 'x'

def longA : String := ⟨'q' :: xs200⟩

def longB : String := ⟨'r' :: xs200⟩

theorem lower_longA : (myLower longA).data = 'q' :: xs200 := by
  show List.map Char.toLower ('q' :: xs200) = 'q' :: xs200
  rw [xs200, List.map_cons, List.map_replicate]
  rfl

theorem lower_longB : (myLower longB).data = 'r' :: xs200 := by
  show List.map Char.toLower ('r' :: xs200) = 'r' :: xs200
  rw [xs200, List.map_cons, List.map_replicate]
  rfl

theorem commonPrefixLen_nil_left (y : List Char) : commonPrefixLen [] y = 0 := by
  cases y <;> rfl

theorem commonPrefixLen_nil_right (x : List Char) : commonPrefixLen x [] = 0 := by
  cases x <;> rfl

theorem cons_replicate_getElem (c d : Char) (n j : Nat) :
    (c :: List.replicate n d)[j]? =
      if j = 0 then some c else if j ≤ n then some d else none := by
  cases j with
  | zero => simp
  | succ j =>
    rw [List.getElem?_cons_succ, List.getElem?_replicate]
    by_cases h : j < n
    · rw [if_pos h, if_neg (by omega), if_pos (by omega)]
    · rw [if_neg h, if_neg (by omega), if_neg (by omega)]

theorem commonPrefixLenNJ_zero (pj : Char → Bool) (x y : List Char)
    (h : ∀ cx cy, x[0]? = some cx → y[0]? = some cy → cx ≠ cy ∨ pj cy = true) :
    commonPrefixLenNJ pj x y = 0 := by
  cases x with
  | nil => cases y <;> rfl
  | cons a as =>
    cases y with
    | nil => rfl
    | cons b bs =>
      rw [commonPrefixLenNJ, if_neg]
      rintro ⟨rfl, hjb⟩
      rcases h a a List.getElem?_cons_zero List.getElem?_cons_zero with hne | hp
      · exact hne rfl
      · rw [hp] at hjb
        exact Bool.noConfusion hjb

theorem bPopular_longB_x : bPopular ('r' :: xs200) 'x' = true := by decide

theorem slice_zero_getElem (l : List Char) (i hi : Nat) (c : Char)
    (h : ((l.drop i).take (hi - i))[0]? = some c) : l[i]? = some c ∧ i < hi := by
  rw [List.getElem?_take] at h
  by_cases hlt : 0 < hi - i
  · rw [if_pos hlt, List.getElem?_drop] at h
    refine ⟨?_, by omega⟩
    rw [show i + 0 = i from by omega] at h
    exact h
  · rw [if_neg hlt] at h
    exact absurd h (by simp)

theorem cappedRunJ_long_zero (i j : Nat) :
    cappedRunJ (bPopular ('r' :: xs200)) ('q' :: xs200) ('r' :: xs200) 201 201 i j = 0 := by
  unfold cappedRunJ
  apply commonPrefixLenNJ_zero
  intro cx cy hx hy
  obtain ⟨hxv, hxi⟩ := slice_zero_getElem _ _ _ _ hx
  obtain ⟨hyv, hyj⟩ := slice_zero_getElem _ _ _ _ hy
  rw [show ('q' :: xs200) = 'q' :: List.replicate 200 'x' from rfl,
    cons_replicate_getElem] at hxv
  rw [show ('r' :: xs200) = 'r' :: List.replicate 200 'x' from rfl,
    cons_replicate_getElem] at hyv
  by_cases hj0 : j = 0
  · rw [if_pos hj0] at hyv
    have hcy : cy = 'r' := by injection hyv with h; exact h.symm
    have hcx : cx = 'q' ∨ cx = 'x' := by
      by_cases hi0 : i = 0
      · rw [if_pos hi0] at hxv
        left
        injection hxv with h
        exact h.symm
      · rw [if_neg hi0] at hxv
        by_cases hile : i ≤ 200
        · rw [if_pos hile] at hxv
          right
          injection hxv with h
          exact h.symm
        · rw [if_neg hile] at hxv
          cases hxv
    left
    rcases hcx with rfl | rfl <;> rw [hcy] <;> decide
  · rw [if_neg hj0] at hyv
    by_cases hjle : j ≤ 200
    · rw [if_pos hjle] at hyv
      have hcy : cy = 'x' := by injection hyv with h; exact h.symm
      right
      rw [hcy]
      exact bPopular_longB_x
    · rw [if_neg hjle] at hyv
      cases hyv

theorem flmRawJ_long :
    findLongestMatchRawJ (bPopular ('r' :: xs200)) ('q' :: xs200) ('r' :: xs200) 0 201 0 201 =
      ⟨0, 0, 0⟩ := by
  unfold findLongestMatchRawJ
  apply foldl_bestStepJ_const
  intro x
  rw [cappedRunJ_long_zero x.1 x.2]

theorem flmJ_long :
    findLongestMatchJ (bPopular ('r' :: xs200)) ('q' :: xs200) ('r' :: xs200) 0 201 0 201 =
      ⟨0, 0, 0⟩ := by
  unfold findLongestMatchJ
  rw [flmRawJ_long]
  rw [extendLeft_stop _ _ _ _ _ (by rintro ⟨h, -, -⟩; exact absurd h (by decide))]
  rw [extendRight_stop _ _ _ _ _ (by rintro ⟨-, -, h⟩; exact absurd h (by decide))]

theorem totalMatchesAJ_long : totalMatchesAJ ('q' :: xs200) ('r' :: xs200) = 0 := by
  unfold totalMatchesAJ
  rw [show ('q' :: xs200).length = 201 from by simp [xs200],
    show ('r' :: xs200).length = 201 from by simp [xs200]]
  rw [matchBlocksTotalJ, flmJ_long]
  rfl
theorem Block.eq_mk (blk : Block) (x y z : Nat)
    (h1 : blk.i = x) (h2 : blk.j = y) (h3 : blk.k = z) : blk = ⟨x, y, z⟩ := by
  cases blk with
  | mk a b c =>
    dsimp only at h1 h2 h3
    rw [h1, h2, h3]

theorem cappedRun_long_00 : cappedRun ('q' :: xs200) ('r' :: xs200) 201 201 0 0 = 0 := by
  decide

theorem cappedRun_long_01 : cappedRun ('q' :: xs200) ('r' :: xs200) 201 201 0 1 = 0 := by
  decide

theorem cappedRun_long_10 : cappedRun ('q' :: xs200) ('r' :: xs200) 201 201 1 0 = 0 := by
  decide

theorem cappedRun_long_11 : cappedRun ('q' :: xs200) ('r' :: xs200) 201 201 1 1 = 200 := by
  decide

theorem flm_long : findLongestMatch ('q' :: xs200) ('r' :: xs200) 0 201 0 201 = ⟨1, 1, 200⟩ := by
  have h11 : ((1 : Nat), (1 : Nat)) ∈ allPairs 0 201 0 201 :=
    allPairs_mem_intro (by omega) (by omega) (by omega) (by omega)
  have hk200 : 200 ≤ (findLongestMatch ('q' :: xs200) ('r' :: xs200) 0 201 0 201).k := by
    have hh : cappedRun ('q' :: xs200) ('r' :: xs200) 201 201 1 1 ≤
        (findLongestMatch ('q' :: xs200) ('r' :: xs200) 0 201 0 201).k :=
      (foldl_bestStep_ge ('q' :: xs200) ('r' :: xs200) 201 201
        (allPairs 0 201 0 201) ⟨0, 0, 0⟩).2 (1, 1) h11
    rw [cappedRun_long_11] at hh
    exact hh
  rcases findLongestMatch_exact ('q' :: xs200) ('r' :: xs200) 0 201 0 201 with h0 | hEx
  · rw [h0] at hk200
    exact absurd hk200 (by decide)
  · obtain ⟨hk1, hk, hi0, hi, hj0, hj⟩ := hEx
    have hcl := cappedRun_le_left ('q' :: xs200) ('r' :: xs200) 201 201
      (findLongestMatch ('q' :: xs200) ('r' :: xs200) 0 201 0 201).i
      (findLongestMatch ('q' :: xs200) ('r' :: xs200) 0 201 0 201).j
    have hcr := cappedRun_le_right ('q' :: xs200) ('r' :: xs200) 201 201
      (findLongestMatch ('q' :: xs200) ('r' :: xs200) 0 201 0 201).i
      (findLongestMatch ('q' :: xs200) ('r' :: xs200) 0 201 0 201).j
    have hle1 : (findLongestMatch ('q' :: xs200) ('r' :: xs200) 0 201 0 201).i ≤ 1 := by omega
    have hle2 : (findLongestMatch ('q' :: xs200) ('r' :: xs200) 0 201 0 201).j ≤ 1 := by omega
    have hij : (findLongestMatch ('q' :: xs200) ('r' :: xs200) 0 201 0 201).i = 1 ∧
        (findLongestMatch ('q' :: xs200) ('r' :: xs200) 0 201 0 201).j = 1 := by
      rcases Nat.le_one_iff_eq_zero_or_eq_one.1 hle1 with hA | hA <;>
        rcases Nat.le_one_iff_eq_zero_or_eq_one.1 hle2 with hB | hB
      · rw [hA, hB, cappedRun_long_00] at hk
        omega
      · rw [hA, hB, cappedRun_long_01] at hk
        omega
      · rw [hA, hB, cappedRun_long_10] at hk
        omega
      · exact ⟨hA, hB⟩
    obtain ⟨hiv, hjv⟩ := hij
    have hkv : (findLongestMatch ('q' :: xs200) ('r' :: xs200) 0 201 0 201).k = 200 := by
      rw [hk, hiv, hjv, cappedRun_long_11]
    exact Block.eq_mk _ 1 1 200 hiv hjv hkv

theorem cappedRun_long_small (i j : Nat) :
    cappedRun ('q' :: xs200) ('r' :: xs200) 1 1 i j = 0 := by
  unfold cappedRun
  rcases i with _ | i
  · rcases j with _ | j
    · decide
    · rw [show (1 : Nat) - (j + 1) = 0 from by omega, List.take_zero]
      exact commonPrefixLen_nil_right _
  · rw [show (1 : Nat) - (i + 1) = 0 from by omega, List.take_zero]
    exact commonPrefixLen_nil_left _

theorem flm_left_long : findLongestMatch ('q' :: xs200) ('r' :: xs200) 0 1 0 1 = ⟨0, 0, 0⟩ := by
  unfold findLongestMatch
  apply foldl_bestStep_const
  intro x
  rw [cappedRun_long_small x.1 x.2]

theorem totalMatches_long : totalMatches ('q' :: xs200) ('r' :: xs200) = 200 := by
  unfold totalMatches
  rw [show ('q' :: xs200).length = 201 from by simp [xs200],
    show ('r' :: xs200).length = 201 from by simp [xs200]]
  rw [matchBlocksTotal, flm_long]
  rw [if_neg (by decide)]
  dsimp only
  rw [show (201 + 201 : Nat) = 401 + 1 from by norm_num]
  rw [show (1 + 200 : Nat) = 201 from by norm_num]
  rw [matchBlocksTotal_empty_left]
  rw [matchBlocksTotal, flm_left_long, if_pos (show Block.k ⟨0, 0, 0⟩ = 0 from rfl)]

theorem fsim_long : SIMILARITY_THRESHOLD ≤ filename_similarity longA longB := by
  unfold filename_similarity
  rw [lower_longA, lower_longB]
  unfold ratioQ
  rw [show ('q' :: xs200).length = 201 from by simp [xs200],
    show ('r' :: xs200).length = 201 from by simp [xs200]]
  rw [if_neg (by norm_num), totalMatches_long]
  unfold SIMILARITY_THRESHOLD
  norm_num

theorem fsimcode_long : filename_similarity_code longA longB = 0 := by
  unfold filename_similarity_code
  rw [lower_longA, lower_longB]
  unfold ratioAJ
  rw [show ('q' :: xs200).length = 201 from by simp [xs200],
    show ('r' :: xs200).length = 201 from by simp [xs200]]
  rw [if_neg (by norm_num), totalMatchesAJ_long]
  norm_num

/-! ## Claim theorems -/

/-- The fixture for C1: `photo.jpg` next to `photo.NEF`, the NEF carrying
    EXIF `DateTimeOriginal = 2020:01:02 03:04:05`. -/
def exampleNEF : FPath := ⟨"photos", "photo.NEF"⟩

def examplePath : FPath := ⟨"photos", "photo.jpg"⟩

def exampleFS : PhotoFS :=
  { pathExists := fun q => decide (q = exampleNEF)
    exifRead := fun q =>
      if q = exampleNEF then ExifData.tags (some ⟨2020, 1, 2, 3, 4, 5⟩) none
      else ExifData.fail
    birth := fun _ => ⟨1999, 9, 9, 9, 9, 9⟩ }

/-- C1: for every path whose lowercased extension is one of
    `.jpg .jpeg .cr2 .png .xmp`, `get_photo_date` returns the companion
    RAW's EXIF date when a companion exists and carries one, else the
    companion's filesystem creation date, and the file's own filesystem
    creation date when no companion exists; the file's own EXIF data is
    never consulted (overriding it changes nothing); and `photo.jpg`
    paired with `photo.NEF` whose `DateTimeOriginal` is
    `2020:01:02 03:04:05` resolves to year folder `2020` and day folder
    `20200102`. -/
theorem claim_C1 (fs : PhotoFS) (p : FPath) (v : ExifData)
    (hext : myLower (pathSuffix p.base) ∈ companionExts) :
    (get_photo_date fs p =
      (match find_matching_raw_file fs p with
       | some r => (get_exif_date fs r).getD (get_file_creation_date fs r)
       | none => get_file_creation_date fs p)) ∧
    get_photo_date (overrideExif fs p v) p = get_photo_date fs p ∧
    yearStr (get_photo_date exampleFS examplePath) = "2020" ∧
    dayStr (get_photo_date exampleFS examplePath) = "20200102" :=
  ⟨get_photo_date_companion fs p hext, get_photo_date_override fs p v hext,
    by decide, by decide⟩

theorem claim_C1_witness :
    myLower (pathSuffix examplePath.base) ∈ companionExts ∧
    ((get_photo_date exampleFS examplePath =
      (match find_matching_raw_file exampleFS examplePath with
       | some r => (get_exif_date exampleFS r).getD (get_file_creation_date exampleFS r)
       | none => get_file_creation_date exampleFS examplePath)) ∧
    get_photo_date (overrideExif exampleFS examplePath ExifData.fail) examplePath =
      get_photo_date exampleFS examplePath ∧
    yearStr (get_photo_date exampleFS examplePath) = "2020" ∧
    dayStr (get_photo_date exampleFS examplePath) = "20200102") :=
  ⟨by decide, claim_C1 exampleFS examplePath ExifData.fail (by decide)⟩

/-- C7 counterexample: date resolution is not failure-free — when the
    `os.stat` read raises (a vanished or unreadable file), the unguarded
    call in `get_file_creation_date` propagates out of `get_photo_date`,
    so the cascade yields an error rather than a date. -/
theorem claim_C7_counterexample :
    get_photo_date_e statFailFS c7Path = Except.error "FileNotFoundError" ∧
    exceptOkDT (get_photo_date_e statFailFS c7Path) = false ∧
    get_file_creation_date_e statFailFS c7Path = Except.error "FileNotFoundError" :=
  ⟨rfl, rfl, rfl⟩

/-- C7 (amended): the cascade never fails except through a raised
    `os.stat` error, which propagates to the caller (where the per-file
    `except` of `organize_photos` records it). When every stat read
    succeeds, resolution agrees with the total model and returns exactly
    one date; EXIF decode failures are always absorbed into `none` by
    `get_exif_date` rather than raised. -/
theorem claim_C7 (fs : PhotoFSE) (p : FPath) (birth : FPath → DateTime)
    (hstat : ∀ q, fs.statRes q = Except.ok (birth q)) :
    get_photo_date_e fs p =
      Except.ok (get_photo_date ⟨fs.pathExists, fs.exifRead, birth⟩ p) ∧
    exceptOkDT (get_photo_date_e fs p) = true ∧
    get_exif_date_e { fs with exifRead := fun _ => ExifData.fail } p = none := by
  refine ⟨get_photo_date_e_total fs birth hstat p, ?_, rfl⟩
  rw [get_photo_date_e_total fs birth hstat p]
  rfl

/-- C7 witness: the amended statement at a concrete always-succeeding
    filesystem. -/
theorem claim_C7_witness :
    get_photo_date_e totalStatFS c7Path =
      Except.ok (get_photo_date
        ⟨totalStatFS.pathExists, totalStatFS.exifRead, fun _ => ⟨1999, 9, 9, 9, 9, 9⟩⟩ c7Path) ∧
    exceptOkDT (get_photo_date_e totalStatFS c7Path) = true ∧
    get_exif_date_e { totalStatFS with exifRead := fun _ => ExifData.fail } c7Path = none :=
  claim_C7 totalStatFS c7Path (fun _ => ⟨1999, 9, 9, 9, 9, 9⟩) (fun _ => rfl)

def ciListing : List FPath := [⟨"d", "PHOTO.nef"⟩]

def ciPath : FPath := ⟨"d", "photo.jpg"⟩

/-- C8 counterexample: with only `PHOTO.nef` on disk, the claimed
    case-insensitive base-name search finds a companion for `photo.jpg`,
    but `find_matching_raw_file` probes `photo.nef`, `photo.NEF`, …
    verbatim and returns none on a case-sensitive directory. -/
theorem claim_C8_counterexample :
    find_matching_raw_file (dirFS ciListing) ciPath ≠ specFindRawCI ciListing ciPath ∧
    find_matching_raw_file (dirFS ciListing) ciPath = none ∧
    specFindRawCI ciListing ciPath = some ⟨"d", "PHOTO.nef"⟩ :=
  ⟨by decide, by decide, by decide⟩

/-- C8 (amended): `find_matching_raw_file` searches only the same
    directory, probing `stem + ext` with the base name taken verbatim
    (case-sensitively), for the extensions in the fixed order
    `.nef, .arw, .dng, .raf`, lowercase form before uppercase form, and
    returns the first candidate that exists on disk, or none. -/
theorem claim_C8 (fs : PhotoFS) (p : FPath) :
    find_matching_raw_file fs p = specFindRawExact fs p ∧
    ((find_matching_raw_file fs p).map FPath.dir).getD p.dir = p.dir :=
  ⟨find_matching_eq_specExact fs p, find_matching_dir fs p⟩

/-- Environment for the collision scenario: every file resolves to the
    same date and no effectful call fails. -/
def c2Env : OrgEnv :=
  { photoDate := fun _ => .ok ⟨2021, 1, 1, 0, 0, 0⟩
    mkdirsErr := fun _ => none
    copyErr := fun _ _ _ => none }

/-- Three distinct sources whose files collide on one target name. -/
def c2Walk : List (String × List String) :=
  [("src1", ["pic.jpg"]), ("src2", ["pic.jpg"]), ("src3", ["pic.jpg"])]

/-- C2: if no file exists at the initial target path the original
    filename is used; otherwise the name is rewritten to `base_N.ext`
    for the smallest `N ≥ 1` whose name is free, and the resolved target
    never coincides with an existing file; concretely, filing three
    sources that collide on `pic.jpg` produces `pic.jpg`, `pic_1.jpg`
    and `pic_2.jpg`. -/
theorem claim_C2 (ex : String → Bool) (dir fname : String) (fuel N : Nat)
    (hN1 : 1 ≤ N) (hNf : N ≤ fuel + 1)
    (hchain : ∀ m, 1 ≤ m → m < N → ex (collisionName dir fname m) = true)
    (hfree : ex (collisionName dir fname N) = false) :
    (ex (joinP dir fname) = false →
      resolveTarget fuel ex dir fname = joinP dir fname ∧
        ex (resolveTarget fuel ex dir fname) = false) ∧
    (ex (joinP dir fname) = true →
      resolveTarget fuel ex dir fname = collisionName dir fname N ∧
        ex (resolveTarget fuel ex dir fname) = false) ∧
    (organize_photos c2Env c2Walk "dest" true []).fs =
      ["dest/2021/20210101/JPG/pic.jpg", "dest/2021/20210101/JPG/pic_1.jpg",
       "dest/2021/20210101/JPG/pic_2.jpg"] ∧
    (organize_photos c2Env c2Walk "dest" true []).organized = 3 := by
  refine ⟨?_, ?_, by decide, by decide⟩
  · intro hex
    have hval : resolveTarget fuel ex dir fname = joinP dir fname := by
      unfold resolveTarget
      rw [hex]
      simp
    exact ⟨hval, by rw [hval]; exact hex⟩
  · intro hex
    have hval : resolveTarget fuel ex dir fname = collisionName dir fname N := by
      unfold resolveTarget
      rw [hex]
      simp only [if_true]
      exact searchFree_eq ex dir fname N hchain hfree fuel 1 (le_refl 1) hN1 (by omega)
    exact ⟨hval, by rw [hval]; exact hfree⟩

def c2ex : String → Bool := fun s => s == joinP "d" "p.jpg"

theorem claim_C2_witness :
    (1 ≤ 1) ∧ (1 ≤ 1 + 1) ∧
    (∀ m, 1 ≤ m → m < 1 → c2ex (collisionName "d" "p.jpg" m) = true) ∧
    c2ex (collisionName "d" "p.jpg" 1) = false ∧
    ((c2ex (joinP "d" "p.jpg") = false →
        resolveTarget 1 c2ex "d" "p.jpg" = joinP "d" "p.jpg" ∧
          c2ex (resolveTarget 1 c2ex "d" "p.jpg") = false) ∧
      (c2ex (joinP "d" "p.jpg") = true →
        resolveTarget 1 c2ex "d" "p.jpg" = collisionName "d" "p.jpg" 1 ∧
          c2ex (resolveTarget 1 c2ex "d" "p.jpg") = false) ∧
      (organize_photos c2Env c2Walk "dest" true []).fs =
        ["dest/2021/20210101/JPG/pic.jpg", "dest/2021/20210101/JPG/pic_1.jpg",
         "dest/2021/20210101/JPG/pic_2.jpg"] ∧
      (organize_photos c2Env c2Walk "dest" true []).organized = 3) :=
  ⟨le_refl 1, by omega,
    fun m h1 h2 => absurd (Nat.lt_of_le_of_lt h1 h2) (Nat.lt_irrefl 1),
    by decide,
    claim_C2 c2ex "d" "p.jpg" 1 1 (le_refl 1) (by omega)
      (fun m h1 h2 => absurd (Nat.lt_of_le_of_lt h1 h2) (Nat.lt_irrefl 1)) (by decide)⟩

/-- C3: the duplicate finder partitions every `(extension, size)` group
    by single-pass seed-anchored greedy clustering in listing order — its
    output coincides with the spec-side greedy recursion (first
    unassigned file seeds, later unassigned files join exactly on
    seed-similarity, assigned files are never reconsidered), emitting
    exactly the clusters with at least two members; and the greedy
    clusters partition their group (their concatenation is a permutation
    of it). -/
theorem claim_C3 :
    (∀ (folder : String) (listing : List DirEntry),
      find_duplicates_in_folder folder listing = spec_find_duplicates folder listing) ∧
    (∀ g : List MediaFile, (greedyClusters g).flatten.Perm g) :=
  ⟨find_duplicates_eq_spec, greedy_flatten_perm⟩

/-- C4: every emitted cluster has at least two members; every member
    carries the cluster's recorded extension and size; no member's
    filename contains `"final"` case-insensitively; and every member
    comes from the eligible listing entries (regular media files). -/
theorem claim_C4 (folder : String) (listing : List DirEntry) (c : Cluster)
    (m : MediaFile) (hc : c ∈ find_duplicates_in_folder folder listing)
    (hm : m ∈ c.files) :
    2 ≤ c.files.length ∧ m.extension = c.extension ∧ m.size = c.size ∧
      hasSub "final".data (myLower m.filename).data = false ∧
      m ∈ mediaFilesOf folder listing := by
  unfold find_duplicates_in_folder at hc
  rcases List.mem_flatten.1 hc with ⟨sub, hsub, hcsub⟩
  rcases List.mem_map.1 hsub with ⟨k, hk, rfl⟩
  by_cases hlen : 1 < (groupOf (mediaFilesOf folder listing) k).length
  · rw [if_pos hlen] at hcsub
    rcases List.mem_map.1 hcsub with ⟨cl, hcl, rfl⟩
    rw [clusterGroup_eq_greedy] at hcl
    have hgr := (List.mem_filter.1 hcl).1
    have h2 : decide (1 < cl.length) = true := (List.mem_filter.1 hcl).2
    have h2' : 2 ≤ cl.length := of_decide_eq_true h2
    have hmg : m ∈ groupOf (mediaFilesOf folder listing) k :=
      greedy_mem_subset_aux (groupOf (mediaFilesOf folder listing) k).length
        (groupOf (mediaFilesOf folder listing) k) (le_refl _) cl hgr m hm
    have hprops := mem_groupOf hmg
    exact ⟨h2', hprops.1, hprops.2.1,
      mediaFilesOf_no_final folder listing m hprops.2.2, hprops.2.2⟩
  · rw [if_neg hlen] at hcsub
    cases hcsub

def c4Listing : List DirEntry :=
  [⟨"IMG_0001.jpg", true, 100⟩, ⟨"IMG_0002.jpg", true, 100⟩]

def c4m : MediaFile :=
  { path := "f/IMG_0001.jpg", filename := "IMG_0001.jpg", base_name := "IMG_0001",
    size := 100, extension := ".jpg" }

def c4m2 : MediaFile :=
  { path := "f/IMG_0002.jpg", filename := "IMG_0002.jpg", base_name := "IMG_0002",
    size := 100, extension := ".jpg" }

def c4Cluster : Cluster := ⟨"f", ".jpg", 100, [c4m, c4m2]⟩

theorem claim_C4_witness :
    2 ≤ c4Cluster.files.length ∧ c4m.extension = c4Cluster.extension ∧
      c4m.size = c4Cluster.size ∧
      hasSub "final".data (myLower c4m.filename).data = false ∧
      c4m ∈ mediaFilesOf "f" c4Listing :=
  claim_C4 "f" c4Listing c4Cluster c4m (by decide) (by decide)

def c9ListingSame : List DirEntry :=
  [⟨"IMG_0001.jpg", true, 7⟩, ⟨"IMG_0002.jpg", true, 7⟩]

def c9ListingDiff : List DirEntry :=
  [⟨"IMG_0001.jpg", true, 7⟩, ⟨"DSC_9999.jpg", true, 7⟩]

/-- C9 counterexample: the code's ratio is not the plain matching-blocks
    ratio — with the default autojunk of `SequenceMatcher(None, ...)`,
    the 201-character names `q` + 200 × `x` and `r` + 200 × `x` have a
    purged popular character `x`, so the code's ratio is `0.0` while the
    matching-blocks ratio `400/402` clears the `0.80` threshold: autojunk
    flips the clustering decision. -/
theorem claim_C9_counterexample :
    ¬((myLower longB).data.length < 200) ∧
    filename_similarity_code longA longB = 0 ∧
    SIMILARITY_THRESHOLD ≤ filename_similarity longA longB ∧
    filename_similarity_code longA longB ≠ filename_similarity longA longB := by
  refine ⟨by rw [lower_longB]; simp [xs200], fsimcode_long, fsim_long, ?_⟩
  rw [fsimcode_long]
  intro h
  have hle := fsim_long
  rw [← h] at hle
  unfold SIMILARITY_THRESHOLD at hle
  norm_num at hle

/-- C9 (amended): the similarity measure is SequenceMatcher's ratio with
    its default autojunk; whenever the second lowered name is shorter
    than 200 characters nothing is junked and it coincides with the
    matching-blocks ratio over the case-folded names, so on such names it
    equals `1` on identical strings and always lies in `[0, 1]`;
    `IMG_0001` vs `IMG_0002` reaches the `0.80` threshold so two such
    files of one extension and size form a single cluster, while
    `IMG_0001` vs `DSC_9999` stays below it so those two files produce no
    cluster. -/
theorem claim_C9 (a b : String) (hlen : (myLower b).data.length < 200) :
    filename_similarity_code a b = filename_similarity a b ∧
    filename_similarity_code b b = 1 ∧
    0 ≤ filename_similarity_code a b ∧ filename_similarity_code a b ≤ 1 ∧
    SIMILARITY_THRESHOLD ≤ filename_similarity_code "IMG_0001" "IMG_0002" ∧
    filename_similarity_code "IMG_0001" "DSC_9999" < SIMILARITY_THRESHOLD ∧
    find_duplicates_in_folder "f" c9ListingSame =
      [⟨"f", ".jpg", 7, [⟨"f/IMG_0001.jpg", "IMG_0001.jpg", "IMG_0001", 7, ".jpg"⟩,
        ⟨"f/IMG_0002.jpg", "IMG_0002.jpg", "IMG_0002", 7, ".jpg"⟩]⟩] ∧
    find_duplicates_in_folder "f" c9ListingDiff = [] := by
  refine ⟨ratioAJ_eq _ _ hlen, ?_, ratioAJ_nonneg _ _, ratioAJ_le_one _ _, ?_, ?_,
    by decide, by decide⟩
  · rw [show filename_similarity_code b b =
      ratioQ (myLower b).data (myLower b).data from ratioAJ_eq _ _ hlen]
    exact ratioQ_self _
  · rw [show filename_similarity_code "IMG_0001" "IMG_0002" =
      filename_similarity "IMG_0001" "IMG_0002" from ratioAJ_eq _ _ (by decide)]
    exact similarity_IMG_pair
  · rw [show filename_similarity_code "IMG_0001" "DSC_9999" =
      filename_similarity "IMG_0001" "DSC_9999" from ratioAJ_eq _ _ (by decide)]
    exact similarity_DSC_pair

/-- C9 witness: the amended statement at the short concrete pair. -/
theorem claim_C9_witness :
    (myLower "IMG_0002").data.length < 200 ∧
    (filename_similarity_code "IMG_0001" "IMG_0002" =
        filename_similarity "IMG_0001" "IMG_0002" ∧
     filename_similarity_code "IMG_0002" "IMG_0002" = 1 ∧
     0 ≤ filename_similarity_code "IMG_0001" "IMG_0002" ∧
     filename_similarity_code "IMG_0001" "IMG_0002" ≤ 1 ∧
     SIMILARITY_THRESHOLD ≤ filename_similarity_code "IMG_0001" "IMG_0002" ∧
     filename_similarity_code "IMG_0001" "DSC_9999" < SIMILARITY_THRESHOLD ∧
     find_duplicates_in_folder "f" c9ListingSame =
       [⟨"f", ".jpg", 7, [⟨"f/IMG_0001.jpg", "IMG_0001.jpg", "IMG_0001", 7, ".jpg"⟩,
         ⟨"f/IMG_0002.jpg", "IMG_0002.jpg", "IMG_0002", 7, ".jpg"⟩]⟩] ∧
     find_duplicates_in_folder "f" c9ListingDiff = []) :=
  ⟨by decide, claim_C9 "IMG_0001" "IMG_0002" (by decide)⟩

/-- C5: a walk directory inside the destination subtree (normalized
    comparison, equality or nesting under `dest + sep`) is skipped
    entirely — processing it changes nothing — and a whole run equals the
    run over the walk with all such directories removed, so a second pass
    never re-files anything already inside the destination. -/
theorem claim_C5 (env : OrgEnv) (walk : List (String × List String)) (dest : String)
    (cf : Bool) (fs0 : List String) (st : OrgState) (rd : String × List String)
    (hskip : skipDir dest rd.1 = true) :
    processDir env dest cf st rd = st ∧
    organize_photos env walk dest cf fs0 =
      organize_photos env (walk.filter (fun rd => !skipDir dest rd.1)) dest cf fs0 :=
  ⟨processDir_skip env dest cf st rd hskip, organize_filter_skip env dest cf fs0 walk⟩

/-- A two-directory walk, one directory inside the destination. -/
def c5Walk : List (String × List String) :=
  [("dest/2021", ["a.jpg"]), ("elsewhere", ["b.jpg"])]

theorem claim_C5_witness :
    skipDir "dest" "dest/2021" = true ∧
    (processDir c2Env "dest" true (initState []) ("dest/2021", ["a.jpg"]) = initState [] ∧
      organize_photos c2Env c5Walk "dest" true [] =
        organize_photos c2Env (c5Walk.filter (fun rd => !skipDir "dest" rd.1))
          "dest" true []) :=
  ⟨by decide,
    claim_C5 c2Env c5Walk "dest" true [] (initState []) ("dest/2021", ["a.jpg"])
      (by decide)⟩

/-- Whether the per-file pipeline raised (the `except` arm runs). -/
def exceptErr : Except String String → Bool
  | .error _ => true
  | .ok _ => false

/-- C6: for a media file, processing counts it exactly once; a pipeline
    failure increments `skipped` by one, appends exactly one message to
    `errors` and leaves `organized` unchanged; a success increments
    `organized` by one and leaves `skipped`/`errors` unchanged; and the
    directory loop continues with the remaining files afterwards, so the
    run always completes with full statistics. -/
theorem claim_C6 (env : OrgEnv) (dest : String) (cf : Bool) (st : OrgState)
    (root fname : String) (rest : List String)
    (himg : is_image_file fname = true) :
    (processFile env dest cf st root fname).total_found = st.total_found + 1 ∧
    (exceptErr (fileTarget env dest cf st.fs (joinP root fname) fname) = true →
      (processFile env dest cf st root fname).skipped = st.skipped + 1 ∧
        (processFile env dest cf st root fname).errors.length = st.errors.length + 1 ∧
        (processFile env dest cf st root fname).organized = st.organized) ∧
    (exceptErr (fileTarget env dest cf st.fs (joinP root fname) fname) = false →
      (processFile env dest cf st root fname).organized = st.organized + 1 ∧
        (processFile env dest cf st root fname).skipped = st.skipped ∧
        (processFile env dest cf st root fname).errors = st.errors) ∧
    (skipDir dest root = false →
      processDir env dest cf st (root, fname :: rest) =
        rest.foldl (fun s f => processFile env dest cf s root f)
          (processFile env dest cf st root fname)) := by
  refine ⟨?_, ?_, ?_, fun h => processDir_cons env dest cf st root fname rest h⟩
  · unfold processFile
    rw [if_pos himg]
    cases fileTarget env dest cf st.fs (joinP root fname) fname <;> rfl
  · intro herr
    unfold processFile
    rw [if_pos himg]
    cases hft : fileTarget env dest cf st.fs (joinP root fname) fname with
    | ok tp => rw [hft] at herr; cases herr
    | error e =>
      refine ⟨rfl, ?_, rfl⟩
      simp [List.length_append]
  · intro hok
    unfold processFile
    rw [if_pos himg]
    cases hft : fileTarget env dest cf st.fs (joinP root fname) fname with
    | ok tp => exact ⟨rfl, rfl, rfl⟩
    | error e => rw [hft] at hok; cases hok

/-- An environment whose date resolution always raises. -/
def c6EnvFail : OrgEnv :=
  { photoDate := fun _ => .error "stat failed"
    mkdirsErr := fun _ => none
    copyErr := fun _ _ _ => none }

theorem claim_C6_witness :
    is_image_file "x.jpg" = true ∧
    ((processFile c6EnvFail "dest" true (initState []) "r" "x.jpg").total_found =
        (initState []).total_found + 1 ∧
      (exceptErr (fileTarget c6EnvFail "dest" true (initState []).fs
            (joinP "r" "x.jpg") "x.jpg") = true →
        (processFile c6EnvFail "dest" true (initState []) "r" "x.jpg").skipped =
            (initState []).skipped + 1 ∧
          (processFile c6EnvFail "dest" true (initState []) "r" "x.jpg").errors.length =
            (initState []).errors.length + 1 ∧
          (processFile c6EnvFail "dest" true (initState []) "r" "x.jpg").organized =
            (initState []).organized) ∧
      (exceptErr (fileTarget c6EnvFail "dest" true (initState []).fs
            (joinP "r" "x.jpg") "x.jpg") = false →
        (processFile c6EnvFail "dest" true (initState []) "r" "x.jpg").organized =
            (initState []).organized + 1 ∧
          (processFile c6EnvFail "dest" true (initState []) "r" "x.jpg").skipped =
            (initState []).skipped ∧
          (processFile c6EnvFail "dest" true (initState []) "r" "x.jpg").errors =
            (initState []).errors) ∧
      (skipDir "dest" "r" = false →
        processDir c6EnvFail "dest" true (initState []) ("r", "x.jpg" :: ["y.jpg"]) =
          ["y.jpg"].foldl (fun s f => processFile c6EnvFail "dest" true s "r" f)
            (processFile c6EnvFail "dest" true (initState []) "r" "x.jpg"))) :=
  ⟨by decide, claim_C6 c6EnvFail "dest" true (initState []) "r" "x.jpg" ["y.jpg"]
    (by decide)⟩

/-- C10: after a full run the counters balance — `total_found` equals
    `organized + skipped` and the error list has exactly `skipped`
    entries — and the counters over any walk prefix never exceed (and
    never decrease towards) the final ones. -/
theorem claim_C10 (env : OrgEnv) (dest : String) (cf : Bool) (fs0 : List String)
    (walk w1 w2 : List (String × List String)) (st : OrgState) (root fname : String)
    (hsplit : walk = w1 ++ w2) (hst : statsOk st) :
    (organize_photos env walk dest cf fs0).total_found =
        (organize_photos env walk dest cf fs0).organized +
          (organize_photos env walk dest cf fs0).skipped ∧
    (organize_photos env walk dest cf fs0).errors.length =
        (organize_photos env walk dest cf fs0).skipped ∧
    statsOk (processFile env dest cf st root fname) ∧
    statsLe st (processFile env dest cf st root fname) ∧
    statsLe (organize_photos env w1 dest cf fs0) (organize_photos env walk dest cf fs0) := by
  have hok := foldWalk_statsOk env dest cf walk (initState fs0) ⟨rfl, rfl⟩
  refine ⟨hok.1, hok.2, processFile_statsOk env dest cf st root fname hst,
    processFile_statsLe env dest cf st root fname, ?_⟩
  rw [hsplit]
  unfold organize_photos
  rw [List.foldl_append]
  exact foldWalk_statsLe env dest cf w2 _

theorem claim_C10_witness :
    (c5Walk = [("dest/2021", ["a.jpg"])] ++ [("elsewhere", ["b.jpg"])] ∧
      statsOk (initState [])) ∧
    ((organize_photos c2Env c5Walk "dest" true []).total_found =
        (organize_photos c2Env c5Walk "dest" true []).organized +
          (organize_photos c2Env c5Walk "dest" true []).skipped ∧
      (organize_photos c2Env c5Walk "dest" true []).errors.length =
        (organize_photos c2Env c5Walk "dest" true []).skipped ∧
      statsOk (processFile c2Env "dest" true (initState []) "r" "x.jpg") ∧
      statsLe (initState []) (processFile c2Env "dest" true (initState []) "r" "x.jpg") ∧
      statsLe (organize_photos c2Env [("dest/2021", ["a.jpg"])] "dest" true [])
        (organize_photos c2Env c5Walk "dest" true [])) :=
  ⟨⟨rfl, ⟨rfl, rfl⟩⟩, claim_C10 c2Env "dest" true [] c5Walk [("dest/2021", ["a.jpg"])]
    [("elsewhere", ["b.jpg"])] (initState []) "r" "x.jpg" rfl ⟨rfl, rfl⟩⟩
